import Mathlib

/-!
# Signature help of luau-lsp

A shallow embedding of `WorkspaceFolder::signatureHelp`
(`src/operations/SignatureHelp.cpp`) and of the test helper
`sourceWithMarker` (`tests/Autocomplete.test.cpp`), and theorems about them.

* `std::string` is a list of characters (`Str`); `std::string::find` and
  `std::string::substr` are `find` and `substr`.
* `size_t` values are natural numbers: every value computed here is a length
  or an offset into a string, so no wrap-around can occur.  The only wrapping
  subtraction of the source (`location.end.column - 1` on `unsigned int`) is
  kept, modulo `2 ^ 32`.
* Pointers to syntax nodes and types are the nodes themselves, resp. natural
  numbers (`TypeId`) resolved by the type arena of the workspace.
* The collaborators of the function (client configuration, file resolver,
  frontend, type printer, documentation store) are the fields of
  `WorkspaceFolder`; their code is not part of the embedded file.
* An exception is an `Except` error; dereferencing a null module pointer is
  the error `Failure.nullDereference`.
-/

set_option autoImplicit false

namespace LuauLsp

/-! ## Strings -/

/-- A `std::string`: a sequence of characters. -/
abbrev Str := List Char

/-- Scan of `std::string::find`: `i` is the offset of the text still to be
searched inside the whole string. An empty needle matches at the end. -/
def findAux (needle : Str) : Str → Nat → Option Nat
  | [], i => if needle = [] then some i else none
  | c :: cs, i => if needle.isPrefixOf (c :: cs) then some i else findAux needle cs (i + 1)

/-- The call `s.find(needle, pos)` of `std::string`: the least offset `i ≥ pos`
at which `needle` occurs in `s`; `none` is `std::string::npos`. -/
def find (s needle : Str) (pos : Nat) : Option Nat :=
  if pos > s.length then none else findAux needle (s.drop pos) pos

/-- The call `s.substr(pos, n)` of `std::string` (for `pos ≤ s.size()`). -/
def substr (s : Str) (pos n : Nat) : Str :=
  (s.drop pos).take n

/-- The call `std::to_string(n)` on a `size_t`: decimal digits. -/
def to_string (n : Nat) : Str :=
  (Nat.repr n).toList

/-! ## Syntax tree -/

/-- Luau `Position`: two `unsigned int`. -/
structure Position where
  line : Nat
  column : Nat
  deriving DecidableEq, Repr

/-- Luau `Location`. -/
structure Location where
  begin : Position
  end_ : Position
  deriving DecidableEq, Repr

/-- An expression node, as far as it is read here: its identity (the key of
`astTypes`) and its source range. -/
structure AstExpr where
  addr : Nat
  location : Location
  deriving DecidableEq, Repr

/-- Luau `AstExprCall`: `func(args...)`, `self` set for `obj:method(...)`. -/
structure AstExprCall where
  location : Location
  func : AstExpr
  args : List AstExpr
  self : Bool
  deriving DecidableEq, Repr

/-- A node of an ancestry: a call expression or any other node. -/
inductive AstNode where
  | exprCall (call : AstExprCall)
  | other (addr : Nat)
  deriving DecidableEq, Repr

/-- The cast `node->as<Luau::AstExprCall>()`: null unless the node is a call. -/
def AstNode.asExprCall : AstNode → Option AstExprCall
  | .exprCall call => some call
  | .other _ => none

/-! ## Types -/

/-- A `Luau::TypeId`: a reference into the type arena. -/
abbrev TypeId := Nat

abbrev ModuleName := Str

/-- Luau `FunctionArgument`: a declared parameter name. -/
structure FunctionArgument where
  name : Str
  location : Location
  deriving DecidableEq, Repr

/-- Luau `FunctionDefinition`. -/
structure FunctionDefinition where
  definitionModuleName : Option ModuleName
  definitionLocation : Location
  deriving DecidableEq, Repr

/-- Luau `FunctionTypeVar`, as far as it is read here. `argTypes` is the
sequence of types that iterating the argument pack from `Luau::begin` to
`Luau::end` yields. -/
structure FunctionTypeVar where
  argTypes : List TypeId
  argNames : List (Option FunctionArgument)
  hasSelf : Bool
  definition : Option FunctionDefinition
  deriving DecidableEq, Repr

/-- The variant stored behind a `TypeId`, as told apart by `Luau::get<T>`. -/
inductive TypeVar where
  | function (ftv : FunctionTypeVar)
  | intersection (parts : List TypeId)
  | other (tag : Nat)
  deriving DecidableEq, Repr

/-! ## Protocol types -/

inductive MarkupKind where
  | PlainText
  | Markdown
  deriving DecidableEq, Repr

structure MarkupContent where
  kind : MarkupKind
  value : Str
  deriving DecidableEq, Repr

/-- The label of a parameter, `std::variant<std::string, std::vector<size_t>>`. -/
inductive ParameterLabel where
  | text (labelString : Str)
  | offsets (range : List Nat)
  deriving DecidableEq, Repr

structure ParameterInformation where
  label : ParameterLabel
  documentation : MarkupContent
  deriving DecidableEq, Repr

structure SignatureInformation where
  label : Str
  documentation : MarkupContent
  parameters : List ParameterInformation
  activeParameter : Nat
  deriving DecidableEq, Repr

structure SignatureHelp where
  signatures : List SignatureInformation
  activeSignature : Nat
  activeParameter : Nat
  deriving DecidableEq, Repr

structure TextDocumentIdentifier where
  uri : Str
  deriving DecidableEq, Repr

structure SignatureHelpParams where
  textDocument : TextDocumentIdentifier
  position : Position
  deriving DecidableEq, Repr

inductive ErrorCode where
  | ParseError
  | InvalidRequest
  | MethodNotFound
  | InvalidParams
  | InternalError
  | RequestFailed
  deriving DecidableEq, Repr

structure JsonRpcException where
  code : ErrorCode
  message : Str
  deriving DecidableEq, Repr

/-- The ways `signatureHelp` can fail to return: a thrown exception, or the
dereference of a null pointer. -/
inductive Failure where
  | exception (e : JsonRpcException)
  | nullDereference
  deriving DecidableEq, Repr

/-! ## Collaborators -/

structure ClientSignatureHelpConfiguration where
  enabled : Bool
  deriving DecidableEq, Repr

structure ClientHoverConfiguration where
  showTableKinds : Bool
  deriving DecidableEq, Repr

structure ClientConfiguration where
  signatureHelp : ClientSignatureHelpConfiguration
  hover : ClientHoverConfiguration
  deriving DecidableEq, Repr

structure ToStringNamedFunctionOpts where
  hideTableKind : Bool
  deriving DecidableEq, Repr

/-- Luau `FrontendOptions{retainFullTypeGraphs, forAutocomplete}`. -/
structure FrontendOptions where
  retainFullTypeGraphs : Bool
  forAutocomplete : Bool
  deriving DecidableEq, Repr

structure TextDocument where
  addr : Nat
  deriving DecidableEq, Repr

structure SourceModule where
  addr : Nat
  deriving DecidableEq, Repr

/-- A lexical scope (`Luau::ScopePtr`), only passed on to the type printer. -/
abbrev ScopePtr := Nat

/-- Luau `Module`: `astTypes` is the lookup `module->astTypes.find(expr)`. -/
structure Module where
  addr : Nat
  astTypes : AstExpr → Option TypeId

/-- The frontend after `frontend.check`: `getSourceModule` and
`moduleResolverForAutocomplete.getModule`, either of which may be null. -/
structure Frontend where
  getSourceModule : ModuleName → Option SourceModule
  getModule : ModuleName → Option Module

/-- What `WorkspaceFolder::signatureHelp` reads from its surroundings. -/
structure WorkspaceFolder where
  /-- The call `client->getConfiguration(rootUri)`. -/
  getConfiguration : ClientConfiguration
  /-- The call `fileResolver.getModuleName(uri)`. -/
  getModuleName : Str → ModuleName
  /-- The call `fileResolver.getTextDocument(moduleName)`, null when unmanaged. -/
  getTextDocument : ModuleName → Option TextDocument
  /-- The call `textDocument->convertPosition(position)`. -/
  convertPosition : TextDocument → Position → Position
  /-- The call `frontend.check(moduleName, opts)`, giving the checked frontend. -/
  check : ModuleName → FrontendOptions → Frontend
  findAstAncestryOfPosition : SourceModule → Position → List AstNode
  findScopeAtPosition : Module → Position → ScopePtr
  getDocumentationSymbolAtPosition : SourceModule → Module → Position → Option Str
  /-- The call `Luau::follow(ty)`. -/
  follow : TypeId → TypeId
  /-- The variant behind a type reference, read by `Luau::get<T>(ty)`. -/
  get : TypeId → TypeVar
  toStringNamedFunction :
    Module → FunctionTypeVar → AstExpr → ScopePtr → ToStringNamedFunctionOpts → Str
  /-- The call `Luau::toString(ty)`. -/
  toString : TypeId → Str
  /-- The call `printDocumentation(client->documentation, symbol)`. -/
  printDocumentation : Str → Str
  /-- The call `printMoonwaveDocumentation(getComments(moduleName, location))`. -/
  printMoonwaveDocumentation : ModuleName → Location → Str

/-! ## `signatureHelp` -/

/-- Lines 30-38: the call expression a query is about. The innermost
ancestry node is cast first, and only if that gives null and there are two
nodes the second-innermost one; null means no signature help. -/
def locateCandidate (ancestry : List AstNode) : Option AstExprCall :=
  match ancestry.getLast? with
  | none => none
  | some back =>
    match back.asExprCall with
    | some candidate => some candidate
    | none =>
      if ancestry.length ≥ 2 then
        (ancestry.get? (ancestry.length - 2)).bind AstNode.asExprCall
      else none

/-- Lines 61-69: the documentation symbol of one candidate. For an
overloaded candidate with a symbol, the symbol is cut at "/overload/" and
"/overload/" with the printed type is appended. -/
def baseDocumentationSymbol (ws : WorkspaceFolder) (documentationSymbol : Option Str)
    (ty : TypeId) (isOverloaded : Bool) : Option Str :=
  match documentationSymbol with
  | none => none
  | some base =>
    if isOverloaded then
      let base :=
        match find base "/overload/".toList 0 with
        | some idx => substr base 0 idx
        | none => base
      some (base ++ "/overload/".toList ++ ws.toString ty)
    else some base

/-- Lines 87-88: the test that the parameter at `idx` is an omitted self:
it is the first one, the function has a self (by flag or by the name of its
first parameter) and the call uses method syntax. -/
def omitSelf (ftv : FunctionTypeVar) (candidate : AstExprCall) (idx : Nat) : Bool :=
  idx == 0 &&
    (ftv.hasSelf ||
      (decide (ftv.argNames.length > 0) &&
        match ftv.argNames.get? 0 with
        | some (some arg) => arg.name == "self".toList
        | _ => false)) &&
    candidate.self

/-- Lines 105-108: the text of the parameter at `idx` with type `ty`:
its name and ": " when it has a name, then the printed type. -/
def labelString (ws : WorkspaceFolder) (ftv : FunctionTypeVar) (idx : Nat) (ty : TypeId) : Str :=
  (match ftv.argNames.get? idx with
    | some (some arg) => arg.name ++ ": ".toList
    | _ => []) ++ ws.toString ty

/-- Lines 97-99: the documentation of the parameter at `idx`. -/
def parameterDocumentation (ws : WorkspaceFolder) (baseSymbol : Option Str) (idx : Nat) :
    MarkupContent :=
  match baseSymbol with
  | some symbol =>
    { kind := .Markdown, value := ws.printDocumentation (symbol ++ "/param/".toList ++ to_string idx) }
  | none => { kind := .Markdown, value := [] }

/-- Lines 83-123: the loop over the argument types. `it` is what is left to
iterate, `idx` the index of its head, `previousParamPos` where the search in
the label resumes, `parameters` the vector built so far. -/
def parametersLoop (ws : WorkspaceFolder) (ftv : FunctionTypeVar) (candidate : AstExprCall)
    (label : Str) (baseSymbol : Option Str) :
    List TypeId → Nat → Nat → List ParameterInformation → List ParameterInformation
  | [], _, _, parameters => parameters
  | ty :: it, idx, previousParamPos, parameters =>
    if omitSelf ftv candidate idx then
      parametersLoop ws ftv candidate label baseSymbol it (idx + 1) previousParamPos parameters
    else
      let documentation := parameterDocumentation ws baseSymbol idx
      let text := labelString ws ftv idx ty
      match find label text previousParamPos with
      | some position =>
        let length := text.length
        parametersLoop ws ftv candidate label baseSymbol it (idx + 1) (position + length)
          (parameters ++
            [{ label := .offsets [position, position + length], documentation := documentation }])
      | none =>
        parametersLoop ws ftv candidate label baseSymbol it (idx + 1) previousParamPos
          (parameters ++ [{ label := .text text, documentation := documentation }])

/-- Lines 71-75: the documentation of one candidate. -/
def signatureDocumentation (ws : WorkspaceFolder) (baseSymbol : Option Str)
    (ftv : FunctionTypeVar) : MarkupContent :=
  match baseSymbol with
  | some symbol => { kind := .Markdown, value := ws.printDocumentation symbol }
  | none =>
    match ftv.definition with
    | some definition =>
      match definition.definitionModuleName with
      | some name =>
        { kind := .Markdown,
          value := ws.printMoonwaveDocumentation name definition.definitionLocation }
      | none => { kind := .Markdown, value := [] }
    | none => { kind := .Markdown, value := [] }

/-- Lines 55-127: the closure `addSignature`, giving the signature it pushes. -/
def addSignature (ws : WorkspaceFolder) (module : Module) (scope : ScopePtr)
    (opts : ToStringNamedFunctionOpts) (candidate : AstExprCall)
    (documentationSymbol : Option Str) (activeParameter : Nat)
    (ty : TypeId) (ftv : FunctionTypeVar) (isOverloaded : Bool) : SignatureInformation :=
  let label := ws.toStringNamedFunction module ftv candidate.func scope opts
  let baseSymbol := baseDocumentationSymbol ws documentationSymbol ty isOverloaded
  let documentation := signatureDocumentation ws baseSymbol ftv
  let parameters := parametersLoop ws ftv candidate label baseSymbol ftv.argTypes 0 0 []
  { label := label,
    documentation := documentation,
    parameters := parameters,
    activeParameter :=
      min activeParameter (if parameters.length = 0 then 0 else parameters.length - 1) }

/-- Lines 129-137: the signatures of the followed callee type: one for a
function, one per function part for an intersection. -/
def collectSignatures (ws : WorkspaceFolder) (module : Module) (scope : ScopePtr)
    (opts : ToStringNamedFunctionOpts) (candidate : AstExprCall)
    (documentationSymbol : Option Str) (activeParameter : Nat)
    (followedId : TypeId) : List SignatureInformation :=
  let add := addSignature ws module scope opts candidate documentationSymbol activeParameter
  let signatures : List SignatureInformation := []
  let signatures :=
    match ws.get followedId with
    | .function ftv => signatures ++ [add followedId ftv false]
    | _ => signatures
  match ws.get followedId with
  | .intersection parts =>
    parts.foldl
      (fun signatures part =>
        match ws.get part with
        | .function candidateFunctionType =>
          signatures ++ [add part candidateFunctionType true]
        | _ => signatures)
      signatures
  | _ => signatures

/-- The position handed to `getDocumentationSymbolAtPosition` (line 42):
the end of the callee, one column back, in `unsigned int` arithmetic. -/
def documentationPosition (candidate : AstExprCall) : Position :=
  { line := candidate.func.location.end_.line,
    column := (candidate.func.location.end_.column + 2 ^ 32 - 1) % 2 ^ 32 }

/-- The function `WorkspaceFolder::signatureHelp`. -/
def signatureHelp (ws : WorkspaceFolder) (params : SignatureHelpParams) :
    Except Failure (Option SignatureHelp) :=
  let config := ws.getConfiguration
  if !config.signatureHelp.enabled then .ok none
  else
    let moduleName := ws.getModuleName params.textDocument.uri
    match ws.getTextDocument moduleName with
    | none =>
      .error (.exception
        { code := .RequestFailed,
          message := "No managed text document for ".toList ++ moduleName })
    | some textDocument =>
      let position := ws.convertPosition textDocument params.position
      let frontend := ws.check moduleName { retainFullTypeGraphs := true, forAutocomplete := true }
      match frontend.getSourceModule moduleName with
      | none => .ok none
      | some sourceModule =>
        match frontend.getModule moduleName with
        | none => .error .nullDereference
        | some module =>
          let ancestry := ws.findAstAncestryOfPosition sourceModule position
          let scope := ws.findScopeAtPosition module position
          match locateCandidate ancestry with
          | none => .ok none
          | some candidate =>
            let documentationSymbol :=
              ws.getDocumentationSymbolAtPosition sourceModule module
                (documentationPosition candidate)
            let activeParameter := candidate.args.length
            match module.astTypes candidate.func with
            | none => .ok none
            | some ty =>
              let followedId := ws.follow ty
              let opts : ToStringNamedFunctionOpts :=
                { hideTableKind := !config.hover.showTableKinds }
              .ok (some
                { signatures :=
                    collectSignatures ws module scope opts candidate documentationSymbol
                      activeParameter followedId,
                  activeSignature := 0,
                  activeParameter := activeParameter })

/-! ## The test helper `sourceWithMarker` -/

/-- The subtraction `n - 1` on `size_t`, which wraps around at `2 ^ 64`. -/
def sizeSubOne (n : Nat) : Nat :=
  (n + 2 ^ 64 - 1) % 2 ^ 64

/-- Lines 14-31 of `tests/Autocomplete.test.cpp`: the loop of
`sourceWithMarker` from index `i` on, with the line and column counted so
far. Each turn moves `i` forward, so the loop makes at most `source.size()`
turns; `turns` bounds them. A turn reads `source[i]`, steps over the second
character of "\r\n", counts a line break or a column, and leaves the loop
when `i` has reached `marker - 1`. -/
def markerLoop (source : Str) (marker : Nat) : Nat → Nat → Nat → Nat → Nat × Nat
  | 0, _, line, column => (line, column)
  | turns + 1, i, line, column =>
    match source.get? i with
    | none => (line, column)
    | some ch =>
      if ch = '\r' ∨ ch = '\n' then
        let i := if ch = '\r' ∧ source.get? (i + 1) = some '\n' then i + 1 else i
        if i = sizeSubOne marker then (line + 1, 0)
        else markerLoop source marker turns (i + 1) (line + 1) 0
      else
        if i = sizeSubOne marker then (line, column + 1)
        else markerLoop source marker turns (i + 1) line (column + 1)

/-- The function `sourceWithMarker` of `tests/Autocomplete.test.cpp`: the
source without its first '|', and the position counted by the loop. The
result is `none` when `REQUIRE(marker != npos)` fails. -/
def sourceWithMarker (source : Str) : Option (Str × Position) :=
  match find source ['|'] 0 with
  | none => none
  | some marker =>
    let source := source.take marker ++ source.drop (marker + 1)
    let counted := markerLoop source marker source.length 0 0 0
    some (source, { line := counted.1, column := counted.2 })

/-! ## Specification-side definitions -/

/-- The text a parameter descriptor shows: its own string, or the slice of
the label its two offsets delimit. -/
def parameterText (label : Str) (p : ParameterInformation) : Str :=
  match p.label with
  | .text t => t
  | .offsets [start, stop] => substr label start (stop - start)
  | .offsets _ => []

/-- The signature has a leading self parameter: the flag `hasSelf`, or a
first parameter named "self". -/
def leadingSelf (ftv : FunctionTypeVar) : Bool :=
  ftv.hasSelf ||
    match ftv.argNames.head? with
    | some (some arg) => arg.name == "self".toList
    | _ => false

/-- The declared parameters of a signature with their indices. -/
def declaredParameters (ftv : FunctionTypeVar) : List (Nat × TypeId) :=
  ftv.argTypes.enum

/-- The parameters to render for a call: the declared ones, without the
first when the call uses method syntax on a signature with a leading self. -/
def renderedParameters (ftv : FunctionTypeVar) (candidate : AstExprCall) : List (Nat × TypeId) :=
  if candidate.self && leadingSelf ftv then (declaredParameters ftv).tail
  else declaredParameters ftv

/-- The span search on its own: the texts are looked up in `label` one after
the other, each search starting where the previous match ended. -/
def spanSearch (label : Str) : List (Str × MarkupContent) → Nat → List ParameterInformation
  | [], _ => []
  | (text, documentation) :: rest, previousParamPos =>
    match find label text previousParamPos with
    | some position =>
      { label := .offsets [position, position + text.length], documentation := documentation } ::
        spanSearch label rest (position + text.length)
    | none =>
      { label := .text text, documentation := documentation } ::
        spanSearch label rest previousParamPos

/-- Text and documentation of the parameter at a declared index. -/
def describeParameter (ws : WorkspaceFolder) (ftv : FunctionTypeVar) (baseSymbol : Option Str)
    (arg : Nat × TypeId) : Str × MarkupContent :=
  (labelString ws ftv arg.1 arg.2, parameterDocumentation ws baseSymbol arg.1)

/-- What the loop has left to render from index `idx` on. -/
def renderedFrom (ftv : FunctionTypeVar) (candidate : AstExprCall) (it : List TypeId)
    (idx : Nat) : List (Nat × TypeId) :=
  (it.enumFrom idx).filter (fun arg => !omitSelf ftv candidate arg.1)

/-- The text occurs in the label at offset `j`: it fits into the label there
and the label holds it there. -/
def occursAt (label text : Str) (j : Nat) : Bool :=
  decide (j + text.length ≤ label.length) && (substr label j text.length == text)

/-- The leftmost occurrence of a text in the label at or after the cursor:
the least offset from the cursor on at which the text occurs, if there is
one. -/
def leftmostOccurrence (label text : Str) (cursor : Nat) : Option Nat :=
  (List.range (label.length + 1)).find? (fun j => decide (cursor ≤ j) && occursAt label text j)

/-- The descriptor the span search is to record for a text at a cursor: the
span of the leftmost occurrence at or after the cursor, or the text itself if
there is no such occurrence. -/
def spanDescriptor (label text : Str) (cursor : Nat) : ParameterLabel :=
  match leftmostOccurrence label text cursor with
  | some position => .offsets [position, position + text.length]
  | none => .text text

/-- The cursor after the search for a text: the end of the leftmost
occurrence at or after the cursor, or the cursor unchanged if there is no
such occurrence. -/
def cursorAfter (label text : Str) (cursor : Nat) : Nat :=
  match leftmostOccurrence label text cursor with
  | some position => position + text.length
  | none => cursor

/-- The running cursor after the searches for some texts, one after the
other, started at `cursor`. -/
def runningCursor (label : Str) (texts : List Str) (cursor : Nat) : Nat :=
  texts.foldl (fun cursor text => cursorAfter label text cursor) cursor

/-- The text `s` cut at its first occurrence of `sep`: what comes before that
occurrence, or all of `s` if `sep` does not occur. -/
def cutAtFirst (sep : Str) : Str → Str
  | [] => []
  | c :: cs => if sep.isPrefixOf (c :: cs) then [] else c :: cutAtFirst sep cs

/-- The call-site rule in the words of the specification, on the ancestry
read innermost first: the innermost node if it is a call, else the
second-innermost node if there is one and it is a call, else nothing. -/
def selectInnermostTwo : List AstNode → Option AstExprCall
  | [] => none
  | .exprCall call :: _ => some call
  | .other _ :: [] => none
  | .other _ :: .exprCall call :: _ => some call
  | .other _ :: .other _ :: _ => none

/-- The innermost enclosing call expression of an ancestry (outermost first):
the last node of it that is a call. -/
def innermostCall (ancestry : List AstNode) : Option AstExprCall :=
  ancestry.reverse.findSome? AstNode.asExprCall

/-- A character that breaks a line. -/
def isLineBreak (ch : Char) : Bool :=
  ch == '\r' || ch == '\n'

/-- The number of line breaks in a text, each of "\r\n", "\r" and "\n"
counted once: the line feeds, and the carriage returns that no line feed
follows. -/
def lineBreaks : Str → Nat
  | [] => 0
  | ch :: rest =>
    (if ch = '\n' ∨ (ch = '\r' ∧ rest.head? ≠ some '\n') then 1 else 0) + lineBreaks rest

/-- The number of characters after the last line break of a text, or after
its start if it has no line break. -/
def charactersAfterLastBreak (text : Str) : Nat :=
  (text.reverse.takeWhile (fun ch => !isLineBreak ch)).length

/-- The position of the first '|' of a source in the words of the claim: the
source without that marker, the number of line breaks before the marker, and
the number of characters between the last of them and the marker. -/
def markerPosition (source : Str) : Option (Str × Position) :=
  if '|' ∈ source then
    let before := source.takeWhile (fun ch => ch != '|')
    let after := (source.dropWhile (fun ch => ch != '|')).tail
    some (before ++ after,
      { line := lineBreaks before, column := charactersAfterLastBreak before })
  else none

/-- The column at the end of a text that starts at column `column`: a line
break sets it to 0, any other character adds one. -/
def columnAfter : Str → Nat → Nat
  | [], column => column
  | ch :: rest, column => columnAfter rest (if isLineBreak ch then 0 else column + 1)

/-- What lines 6-48 have established when none of them returns or throws. -/
structure Resolution where
  module : Module
  scope : ScopePtr
  candidate : AstExprCall
  documentationSymbol : Option Str
  followedId : TypeId

/-- Lines 6-48 as a whole: the module, scope, located call, documentation
symbol and followed callee type of a request, when signature help is
enabled, the document is managed, source module and module exist, a call is
located and its callee has a recorded type. -/
def resolve (ws : WorkspaceFolder) (params : SignatureHelpParams) : Option Resolution :=
  if ws.getConfiguration.signatureHelp.enabled then
    let moduleName := ws.getModuleName params.textDocument.uri
    match ws.getTextDocument moduleName with
    | none => none
    | some textDocument =>
      let position := ws.convertPosition textDocument params.position
      let frontend := ws.check moduleName { retainFullTypeGraphs := true, forAutocomplete := true }
      match frontend.getSourceModule moduleName, frontend.getModule moduleName with
      | some sourceModule, some module =>
        match locateCandidate (ws.findAstAncestryOfPosition sourceModule position) with
        | none => none
        | some candidate =>
          match module.astTypes candidate.func with
          | none => none
          | some ty =>
            some
              { module := module,
                scope := ws.findScopeAtPosition module position,
                candidate := candidate,
                documentationSymbol :=
                  ws.getDocumentationSymbolAtPosition sourceModule module
                    (documentationPosition candidate),
                followedId := ws.follow ty }
      | _, _ => none
  else none

/-- The closure `addSignature` with what it captures from a resolved request. -/
def Resolution.addSignature (r : Resolution) (ws : WorkspaceFolder) (ty : TypeId)
    (ftv : FunctionTypeVar) (isOverloaded : Bool) : SignatureInformation :=
  LuauLsp.addSignature ws r.module r.scope
    { hideTableKind := !ws.getConfiguration.hover.showTableKinds }
    r.candidate r.documentationSymbol r.candidate.args.length ty ftv isOverloaded

/-- The response to a resolved request. -/
def Resolution.response (r : Resolution) (ws : WorkspaceFolder) : SignatureHelp :=
  { signatures :=
      collectSignatures ws r.module r.scope
        { hideTableKind := !ws.getConfiguration.hover.showTableKinds }
        r.candidate r.documentationSymbol r.candidate.args.length r.followedId,
    activeSignature := 0,
    activeParameter := r.candidate.args.length }

/-! ## Example data -/

def noLocation : Location :=
  { begin := { line := 0, column := 0 }, end_ := { line := 0, column := 0 } }

def named (name : String) : Option FunctionArgument :=
  some { name := name.toList, location := noLocation }

/-- The type of `function foo(a: number, b: string): boolean`. -/
def fooType : FunctionTypeVar :=
  { argTypes := [1, 2], argNames := [named "a", named "b"], hasSelf := false,
    definition := none }

/-- The type of a method `(self: Obj, n: number) -> ()`. -/
def methodType : FunctionTypeVar :=
  { argTypes := [3, 1], argNames := [named "self", named "n"], hasSelf := false,
    definition := none }

/-- The type of `(number, number) -> number`, without parameter names. -/
def addType : FunctionTypeVar :=
  { argTypes := [1, 1], argNames := [], hasSelf := false, definition := none }

/-- The type of `function bar(x: number, y: string, z: number)`. -/
def barType : FunctionTypeVar :=
  { argTypes := [1, 2, 1], argNames := [named "x", named "y", named "z"], hasSelf := false,
    definition := none }

/-- A call of the callee expression at `addr` with `n` arguments. -/
def callOf (addr n : Nat) (self : Bool) : AstExprCall :=
  { location := noLocation,
    func := { addr := addr, location := noLocation },
    args := List.replicate n { addr := 0, location := noLocation },
    self := self }

/-- The call `foo(1, )`, with two argument slots. -/
def fooCall : AstExprCall := callOf 7 2 false

/-- The method call `obj:method(1)`. -/
def methodCall : AstExprCall := callOf 20 1 true

/-- The same method called with a dot, `obj.method(obj, 1)`. -/
def dotCall : AstExprCall := callOf 20 2 false

/-- The call `bar(1, 2, 3, 4, 5)`. -/
def barCall : AstExprCall := callOf 30 5 false

/-- A call of a value whose type is an intersection of two functions. -/
def overloadedCall : AstExprCall := callOf 40 1 false

/-- A call of a value that is not callable, `t()` for a table `t`. -/
def tableCall : AstExprCall := callOf 50 0 false

/-- A call of a value whose type is an intersection with a part that is not
a function. -/
def mixedCall : AstExprCall := callOf 60 1 false

/-- A function type whose definition is known, in module "game/foo". -/
def definedType : FunctionTypeVar :=
  { argTypes := [1], argNames := [named "n"], hasSelf := false,
    definition :=
      some { definitionModuleName := some "game/foo".toList, definitionLocation := noLocation } }

/-- A function type whose definition has no module name. -/
def anonymousType : FunctionTypeVar :=
  { argTypes := [1], argNames := [named "n"], hasSelf := false,
    definition := some { definitionModuleName := none, definitionLocation := noLocation } }

def fooLabel : Str := "foo(a: number, b: string): boolean".toList

def methodLabel : Str := "method(n: number): ()".toList

def exampleModule : Module :=
  { addr := 0,
    astTypes := fun expr =>
      if expr.addr = 7 then some 10
      else if expr.addr = 20 then some 12
      else if expr.addr = 30 then some 14
      else if expr.addr = 40 then some 11
      else if expr.addr = 50 then some 15
      else if expr.addr = 60 then some 16
      else none }

/-- A workspace with one managed document "game/foo". The line of the
position picks the ancestry: line 1 is inside `foo(1, )`, line 2 inside
`obj:method(1)`, line 3 inside `bar(1, 2, 3, 4, 5)`, line 4 inside a call of
an overloaded value, line 5 inside a call of a table, line 6 outside every
node, line 7 inside a call of a value of type 16; any other line is inside
two nodes that are not calls. Type 10 is `fooType`, 11 the intersection of 10
and 13, 12 `methodType`, 13 `addType`, 14 `barType`, 15 a table, 16 the
intersection of 10, 15 and 13. Documentation lookups answer with their key,
definition comments with the module name. -/
def exampleWorkspace : WorkspaceFolder :=
  { getConfiguration :=
      { signatureHelp := { enabled := true }, hover := { showTableKinds := false } },
    getModuleName := fun uri => uri,
    getTextDocument := fun name => if name = "game/foo".toList then some { addr := 0 } else none,
    convertPosition := fun _ position => position,
    check := fun _ _ =>
      { getSourceModule := fun _ => some { addr := 0 },
        getModule := fun _ => some exampleModule },
    findAstAncestryOfPosition := fun _ position =>
      if position.line = 1 then [.other 0, .exprCall fooCall]
      else if position.line = 2 then [.exprCall methodCall]
      else if position.line = 3 then [.other 0, .exprCall barCall, .other 1]
      else if position.line = 4 then [.exprCall overloadedCall]
      else if position.line = 5 then [.exprCall tableCall]
      else if position.line = 6 then []
      else if position.line = 7 then [.exprCall mixedCall]
      else [.other 0, .other 1],
    findScopeAtPosition := fun _ _ => 0,
    getDocumentationSymbolAtPosition := fun _ _ _ => some "pkg/f".toList,
    follow := fun ty => ty,
    get := fun ty =>
      if ty = 10 then .function fooType
      else if ty = 11 then .intersection [10, 13]
      else if ty = 12 then .function methodType
      else if ty = 13 then .function addType
      else if ty = 14 then .function barType
      else if ty = 16 then .intersection [10, 15, 13]
      else .other 0,
    toStringNamedFunction := fun _ ftv _ _ _ =>
      if ftv = fooType then fooLabel
      else if ftv = methodType then methodLabel
      else if ftv = barType then "bar(x: number, y: string, z: number): ()".toList
      else "add(number, number): number".toList,
    toString := fun ty =>
      if ty = 1 then "number".toList
      else if ty = 2 then "string".toList
      else if ty = 3 then "Obj".toList
      else if ty = 10 then "(number, string) -> boolean".toList
      else if ty = 13 then "(number, number) -> number".toList
      else "(number) -> number".toList,
    printDocumentation := fun symbol => symbol,
    printMoonwaveDocumentation := fun name _ => "Comment in ".toList ++ name }

/-- The same workspace with signature help switched off. -/
def disabledWorkspace : WorkspaceFolder :=
  { exampleWorkspace with
    getConfiguration :=
      { signatureHelp := { enabled := false }, hover := { showTableKinds := false } } }

/-- The same workspace when the check leaves a source module but no module. -/
def nullModuleWorkspace : WorkspaceFolder :=
  { exampleWorkspace with
    check := fun _ _ =>
      { getSourceModule := fun _ => some { addr := 0 },
        getModule := fun _ => none } }

/-- The same workspace when the check leaves no source module. -/
def noSourceWorkspace : WorkspaceFolder :=
  { exampleWorkspace with
    check := fun _ _ =>
      { getSourceModule := fun _ => none,
        getModule := fun _ => none } }

/-- A request in the managed document, on the given line. -/
def paramsAt (line : Nat) : SignatureHelpParams :=
  { textDocument := { uri := "game/foo".toList }, position := { line := line, column := 7 } }

/-- A request in a document that is not managed. -/
def unmanagedParams : SignatureHelpParams :=
  { textDocument := { uri := "game/bar".toList }, position := { line := 0, column := 0 } }

/-- The resolution of a request of the example workspace that locates `call`
with followed callee type `ty`. -/
def exampleResolution (call : AstExprCall) (ty : TypeId) : Resolution :=
  { module := exampleModule, scope := 0, candidate := call,
    documentationSymbol := some "pkg/f".toList, followedId := ty }

/-! # Theorems -/

/-! ## Facts about `find` -/

theorem findAux_some (needle : Str) :
    ∀ (s : Str) (i j : Nat), findAux needle s i = some j →
      ∃ k, j = i + k ∧ k ≤ s.length ∧ needle <+: s.drop k ∧
        ∀ k2, k2 < k → ¬ needle <+: s.drop k2 := by
  intro s
  induction s with
  | nil =>
    intro i j h
    unfold findAux at h
    split at h
    · rename_i hn
      refine ⟨0, ?_, ?_, ?_, ?_⟩
      · simpa using (Option.some.inj h).symm
      · simp
      · simp [hn]
      · intro k2 hk2; omega
    · cases h
  | cons c cs ih =>
    intro i j h
    unfold findAux at h
    split at h
    · rename_i hp
      refine ⟨0, ?_, ?_, ?_, ?_⟩
      · simpa using (Option.some.inj h).symm
      · simp
      · simpa using List.isPrefixOf_iff_prefix.mp hp
      · intro k2 hk2; omega
    · rename_i hp
      obtain ⟨k, hj, hk, hpre, hmin⟩ := ih (i + 1) j h
      refine ⟨k + 1, by omega, by simpa using hk, by simpa using hpre, ?_⟩
      intro k2 hk2
      cases k2 with
      | zero =>
        intro hpre0
        exact hp (List.isPrefixOf_iff_prefix.mpr (by simpa using hpre0))
      | succ k3 =>
        have := hmin k3 (by omega)
        simpa using this

theorem findAux_none (needle : Str) :
    ∀ (s : Str) (i : Nat), findAux needle s i = none →
      ∀ k, k ≤ s.length → ¬ needle <+: s.drop k := by
  intro s
  induction s with
  | nil =>
    intro i h k hk
    unfold findAux at h
    split at h
    · cases h
    · rename_i hn
      intro hpre
      apply hn
      simpa using hpre
  | cons c cs ih =>
    intro i h k hk
    unfold findAux at h
    split at h
    · cases h
    · rename_i hp
      cases k with
      | zero =>
        intro hpre0
        exact hp (List.isPrefixOf_iff_prefix.mpr (by simpa using hpre0))
      | succ k3 =>
        have := ih (i + 1) h k3 (by simpa using hk)
        simpa using this

/-- A successful `find` returns the least offset from `pos` on at which the
needle occurs, and the needle lies inside the string there. -/
theorem find_some {s needle : Str} {pos j : Nat} (h : find s needle pos = some j) :
    pos ≤ j ∧ j + needle.length ≤ s.length ∧ substr s j needle.length = needle ∧
      ∀ j2, pos ≤ j2 → j2 < j → ¬ needle <+: s.drop j2 := by
  unfold find at h
  split at h
  · cases h
  · rename_i hpos
    obtain ⟨k, hj, hk, hpre, hmin⟩ := findAux_some needle _ _ _ h
    rw [List.drop_drop] at hpre
    have hlen : needle.length ≤ (s.drop (pos + k)).length := hpre.length_le
    simp only [List.length_drop] at hlen hk
    subst hj
    refine ⟨by omega, ?_, ?_, ?_⟩
    · omega
    · unfold substr
      exact (List.prefix_iff_eq_take.mp hpre).symm
    · intro j2 h1 h2
      have := hmin (j2 - pos) (by omega)
      rw [List.drop_drop] at this
      have e : pos + (j2 - pos) = j2 := by omega
      rwa [e] at this

/-- A failed `find` means the needle occurs nowhere from `pos` on. -/
theorem find_none {s needle : Str} {pos : Nat} (h : find s needle pos = none) :
    ∀ j, pos ≤ j → j ≤ s.length → ¬ needle <+: s.drop j := by
  intro j h1 h2
  unfold find at h
  split at h
  · omega
  · have := findAux_none needle _ _ h (j - pos) (by simp only [List.length_drop]; omega)
    rw [List.drop_drop] at this
    have e : pos + (j - pos) = j := by omega
    rwa [e] at this

/-! ## The parameter loop as a search over texts -/

theorem parametersLoop_eq (ws : WorkspaceFolder) (ftv : FunctionTypeVar)
    (candidate : AstExprCall) (label : Str) (baseSymbol : Option Str) :
    ∀ (it : List TypeId) (idx pos : Nat) (acc : List ParameterInformation),
      parametersLoop ws ftv candidate label baseSymbol it idx pos acc =
        acc ++ spanSearch label
          ((renderedFrom ftv candidate it idx).map (describeParameter ws ftv baseSymbol)) pos := by
  intro it
  induction it with
  | nil => intro idx pos acc; simp [parametersLoop, renderedFrom, spanSearch]
  | cons ty it ih =>
    intro idx pos acc
    unfold parametersLoop
    by_cases h : omitSelf ftv candidate idx = true
    · simp only [h, if_true]
      rw [ih]
      simp [renderedFrom, List.enumFrom, h]
    · simp only [h]
      have hr : renderedFrom ftv candidate (ty :: it) idx
          = (idx, ty) :: renderedFrom ftv candidate it (idx + 1) := by
        simp [renderedFrom, List.enumFrom, h]
      rw [hr, List.map_cons]
      simp only [describeParameter, spanSearch]
      cases hf : find label (labelString ws ftv idx ty) pos with
      | none => simp only [Bool.false_eq_true, if_false]; rw [ih]; simp [describeParameter]
      | some position => simp only [Bool.false_eq_true, if_false]; rw [ih]; simp [describeParameter]

theorem omitSelf_succ (ftv : FunctionTypeVar) (candidate : AstExprCall) (idx : Nat) :
    omitSelf ftv candidate (idx + 1) = false := by
  simp [omitSelf]

theorem omitSelf_zero (ftv : FunctionTypeVar) (candidate : AstExprCall) :
    omitSelf ftv candidate 0 = (candidate.self && leadingSelf ftv) := by
  unfold omitSelf leadingSelf
  cases hn : ftv.argNames with
  | nil => cases candidate.self <;> cases ftv.hasSelf <;> simp
  | cons a rest =>
    cases candidate.self <;> cases ftv.hasSelf <;> simp

theorem renderedFrom_pos (ftv : FunctionTypeVar) (candidate : AstExprCall) :
    ∀ (it : List TypeId) (idx : Nat), 0 < idx →
      renderedFrom ftv candidate it idx = it.enumFrom idx := by
  intro it idx hidx
  unfold renderedFrom
  rw [List.filter_eq_self]
  intro arg harg
  have := List.le_fst_of_mem_enumFrom harg
  obtain ⟨n, hn⟩ : ∃ n, arg.1 = n + 1 := ⟨arg.1 - 1, by omega⟩
  rw [hn, omitSelf_succ]; rfl

theorem renderedFrom_zero (ftv : FunctionTypeVar) (candidate : AstExprCall) :
    renderedFrom ftv candidate ftv.argTypes 0 = renderedParameters ftv candidate := by
  unfold renderedParameters declaredParameters List.enum
  rw [← omitSelf_zero]
  cases hargs : ftv.argTypes with
  | nil => simp [renderedFrom]
  | cons ty it =>
    have h1 := renderedFrom_pos ftv candidate it 1 (by omega)
    by_cases h : omitSelf ftv candidate 0 = true
    · simp only [h, if_true, List.enumFrom, List.tail_cons]
      rw [← h1]
      simp [renderedFrom, List.enumFrom, h]
    · simp only [h, List.enumFrom]
      rw [← h1]
      simp [renderedFrom, List.enumFrom, h]

/-- The parameters of a built signature are the span search over the texts of
the rendered parameters, started at offset 0. -/
theorem addSignature_parameters (ws : WorkspaceFolder) (module : Module) (scope : ScopePtr)
    (opts : ToStringNamedFunctionOpts) (candidate : AstExprCall)
    (documentationSymbol : Option Str) (activeParameter : Nat)
    (ty : TypeId) (ftv : FunctionTypeVar) (isOverloaded : Bool) :
    (addSignature ws module scope opts candidate documentationSymbol activeParameter
        ty ftv isOverloaded).parameters =
      spanSearch
        (addSignature ws module scope opts candidate documentationSymbol activeParameter
          ty ftv isOverloaded).label
        ((renderedParameters ftv candidate).map
          (describeParameter ws ftv
            (baseDocumentationSymbol ws documentationSymbol ty isOverloaded))) 0 := by
  simp only [addSignature]
  rw [parametersLoop_eq, renderedFrom_zero]
  simp

/-! ## Facts about the span search -/

/-- Each descriptor of a span search belongs to the text at the same place of
the input: it is that text, or a span at or after the start of the search that
lies in the label and holds exactly that text. -/
theorem spanSearch_getElem? (label : Str) :
    ∀ (texts : List (Str × MarkupContent)) (pos k : Nat) (p : ParameterInformation),
      (spanSearch label texts pos)[k]? = some p →
      ∃ t d, texts[k]? = some (t, d) ∧ p.documentation = d ∧
        (p.label = .text t ∨
          ∃ s, p.label = .offsets [s, s + t.length] ∧ pos ≤ s ∧
            s + t.length ≤ label.length ∧ substr label s t.length = t) := by
  intro texts
  induction texts with
  | nil => intro pos k p h; simp [spanSearch] at h
  | cons head rest ih =>
    intro pos k p h
    obtain ⟨text, documentation⟩ := head
    unfold spanSearch at h
    cases hf : find label text pos with
    | none =>
      rw [hf] at h
      cases k with
      | zero =>
        simp only [List.getElem?_cons_zero, Option.some.injEq] at h
        subst h
        exact ⟨text, documentation, by simp, rfl, Or.inl rfl⟩
      | succ k =>
        simp only [List.getElem?_cons_succ] at h
        simpa using ih pos k p h
    | some position =>
      rw [hf] at h
      obtain ⟨h1, h2, h3, _⟩ := find_some hf
      cases k with
      | zero =>
        simp only [List.getElem?_cons_zero, Option.some.injEq] at h
        subst h
        exact ⟨text, documentation, by simp, rfl, Or.inr ⟨position, rfl, h1, h2, h3⟩⟩
      | succ k =>
        simp only [List.getElem?_cons_succ] at h
        obtain ⟨t, d, ht, hd, hl⟩ := ih (position + text.length) k p h
        refine ⟨t, d, by simpa using ht, hd, ?_⟩
        rcases hl with hl | ⟨s, hs1, hs2, hs3, hs4⟩
        · exact Or.inl hl
        · exact Or.inr ⟨s, hs1, by omega, hs3, hs4⟩

theorem spanSearch_length (label : Str) :
    ∀ (texts : List (Str × MarkupContent)) (pos : Nat),
      (spanSearch label texts pos).length = texts.length := by
  intro texts
  induction texts with
  | nil => intro pos; simp [spanSearch]
  | cons head rest ih =>
    intro pos
    obtain ⟨text, documentation⟩ := head
    unfold spanSearch
    cases hf : find label text pos <;> simp [ih]

/-- Reading the descriptors of a span search back gives the input texts with
their documentation. -/
theorem spanSearch_texts (label : Str) :
    ∀ (texts : List (Str × MarkupContent)) (pos : Nat),
      (spanSearch label texts pos).map (fun p => (parameterText label p, p.documentation))
        = texts := by
  intro texts
  induction texts with
  | nil => intro pos; simp [spanSearch]
  | cons head rest ih =>
    intro pos
    obtain ⟨text, documentation⟩ := head
    unfold spanSearch
    cases hf : find label text pos with
    | none =>
      simp only [List.map_cons, ih]
      simp [parameterText]
    | some position =>
      obtain ⟨_, _, h3, _⟩ := find_some hf
      simp only [List.map_cons, ih]
      simp [parameterText, h3]

/-- Spans of a span search follow each other: a later span starts at or after
the end of every earlier one. -/
theorem spanSearch_ordered (label : Str) :
    ∀ (texts : List (Str × MarkupContent)) (pos i j : Nat) (pi pj : ParameterInformation)
      (si ei sj ej : Nat), i < j →
      (spanSearch label texts pos)[i]? = some pi →
      (spanSearch label texts pos)[j]? = some pj →
      pi.label = .offsets [si, ei] → pj.label = .offsets [sj, ej] → ei ≤ sj := by
  intro texts
  induction texts with
  | nil => intro pos i j pi pj si ei sj ej _ h; simp [spanSearch] at h
  | cons head rest ih =>
    intro pos i j pi pj si ei sj ej hij hi hj hli hlj
    obtain ⟨text, documentation⟩ := head
    unfold spanSearch at hi hj
    obtain ⟨j, rfl⟩ : ∃ j2, j = j2 + 1 := ⟨j - 1, by omega⟩
    cases hf : find label text pos with
    | none =>
      rw [hf] at hi hj
      simp only [List.getElem?_cons_succ] at hj
      cases i with
      | zero =>
        simp only [List.getElem?_cons_zero, Option.some.injEq] at hi
        subst hi
        simp at hli
      | succ i =>
        simp only [List.getElem?_cons_succ] at hi
        exact ih pos i j pi pj si ei sj ej (by omega) hi hj hli hlj
    | some position =>
      rw [hf] at hi hj
      simp only [List.getElem?_cons_succ] at hj
      cases i with
      | zero =>
        simp only [List.getElem?_cons_zero, Option.some.injEq] at hi
        subst hi
        simp only [ParameterLabel.offsets.injEq, List.cons.injEq, and_true] at hli
        obtain ⟨t, d, _, _, hl⟩ := spanSearch_getElem? label rest _ j pj hj
        rcases hl with hl | ⟨s, hs1, hs2, _, _⟩
        · rw [hl] at hlj; cases hlj
        · rw [hs1] at hlj
          simp only [ParameterLabel.offsets.injEq, List.cons.injEq, and_true] at hlj
          omega
      | succ i =>
        simp only [List.getElem?_cons_succ] at hi
        exact ih _ i j pi pj si ei sj ej (by omega) hi hj hli hlj

/-! ## The shape of the response -/

/-- The fold over the parts of an intersection appends, in order, one
signature per part that is a function. -/
theorem foldl_parts_eq (ws : WorkspaceFolder)
    (add : TypeId → FunctionTypeVar → Bool → SignatureInformation) :
    ∀ (parts : List TypeId) (init : List SignatureInformation),
      parts.foldl
        (fun signatures part =>
          match ws.get part with
          | .function candidateFunctionType =>
            signatures ++ [add part candidateFunctionType true]
          | _ => signatures)
        init =
      init ++ parts.filterMap (fun part =>
        match ws.get part with
        | .function candidateFunctionType => some (add part candidateFunctionType true)
        | _ => none) := by
  intro parts
  induction parts with
  | nil => intro init; simp
  | cons part parts ih =>
    intro init
    simp only [List.foldl_cons, List.filterMap_cons]
    rw [ih]
    cases ws.get part <;> simp

/-- The signatures collected for a followed type, by the kind of the type. -/
theorem collectSignatures_eq (ws : WorkspaceFolder) (module : Module) (scope : ScopePtr)
    (opts : ToStringNamedFunctionOpts) (candidate : AstExprCall)
    (documentationSymbol : Option Str) (activeParameter : Nat) (followedId : TypeId) :
    collectSignatures ws module scope opts candidate documentationSymbol activeParameter
        followedId =
      match ws.get followedId with
      | .function ftv =>
        [addSignature ws module scope opts candidate documentationSymbol activeParameter
          followedId ftv false]
      | .intersection parts =>
        parts.filterMap (fun part =>
          match ws.get part with
          | .function candidateFunctionType =>
            some (addSignature ws module scope opts candidate documentationSymbol
              activeParameter part candidateFunctionType true)
          | _ => none)
      | .other _ => [] := by
  unfold collectSignatures
  cases h : ws.get followedId with
  | function ftv => simp
  | intersection parts => simp only [foldl_parts_eq]; simp
  | other tag => simp

/-- A resolved request is answered with the signatures of the followed type. -/
theorem signatureHelp_of_resolve {ws : WorkspaceFolder} {params : SignatureHelpParams}
    {r : Resolution} (h : resolve ws params = some r) :
    signatureHelp ws params = .ok (some (r.response ws)) := by
  unfold resolve at h
  unfold signatureHelp
  cases hen : ws.getConfiguration.signatureHelp.enabled with
  | false => simp [hen] at h
  | true =>
    cases htd : ws.getTextDocument (ws.getModuleName params.textDocument.uri) with
    | none => simp [hen, htd] at h
    | some textDocument =>
      cases hsm : (ws.check (ws.getModuleName params.textDocument.uri)
          { retainFullTypeGraphs := true, forAutocomplete := true }).getSourceModule
          (ws.getModuleName params.textDocument.uri) with
      | none => simp [hen, htd, hsm] at h
      | some sourceModule =>
        cases hm : (ws.check (ws.getModuleName params.textDocument.uri)
            { retainFullTypeGraphs := true, forAutocomplete := true }).getModule
            (ws.getModuleName params.textDocument.uri) with
        | none => simp [hen, htd, hsm, hm] at h
        | some module =>
          cases hc : locateCandidate (ws.findAstAncestryOfPosition sourceModule
              (ws.convertPosition textDocument params.position)) with
          | none => simp [hen, htd, hsm, hm, hc] at h
          | some candidate =>
            cases hty : module.astTypes candidate.func with
            | none => simp [hen, htd, hsm, hm, hc, hty] at h
            | some ty =>
              simp only [hen, htd, hsm, hm, hc, hty, if_true, Option.some.injEq] at h
              subst h
              simp [hen, htd, hsm, hm, hc, hty, Resolution.response]

/-- Only a resolved request gets a present response. -/
theorem resolve_of_signatureHelp {ws : WorkspaceFolder} {params : SignatureHelpParams}
    {response : SignatureHelp} (h : signatureHelp ws params = .ok (some response)) :
    ∃ r, resolve ws params = some r ∧ response = r.response ws := by
  unfold signatureHelp at h
  unfold resolve
  cases hen : ws.getConfiguration.signatureHelp.enabled with
  | false => simp [hen] at h
  | true =>
    cases htd : ws.getTextDocument (ws.getModuleName params.textDocument.uri) with
    | none => simp [hen, htd] at h
    | some textDocument =>
      cases hsm : (ws.check (ws.getModuleName params.textDocument.uri)
          { retainFullTypeGraphs := true, forAutocomplete := true }).getSourceModule
          (ws.getModuleName params.textDocument.uri) with
      | none => simp [hen, htd, hsm] at h
      | some sourceModule =>
        cases hm : (ws.check (ws.getModuleName params.textDocument.uri)
            { retainFullTypeGraphs := true, forAutocomplete := true }).getModule
            (ws.getModuleName params.textDocument.uri) with
        | none => simp [hen, htd, hsm, hm] at h
        | some module =>
          cases hc : locateCandidate (ws.findAstAncestryOfPosition sourceModule
              (ws.convertPosition textDocument params.position)) with
          | none => simp [hen, htd, hsm, hm, hc] at h
          | some candidate =>
            cases hty : module.astTypes candidate.func with
            | none => simp [hen, htd, hsm, hm, hc, hty] at h
            | some ty =>
              simp only [hen, htd, hsm, hm, hc, hty, Bool.not_true, Bool.false_eq_true,
                if_false, Except.ok.injEq, Option.some.injEq] at h
              subst h
              simp [hen, htd, hsm, hm, hc, hty, Resolution.response]

/-- Every signature of a response was built by `addSignature`. -/
theorem mem_response {ws : WorkspaceFolder} {r : Resolution} {sig : SignatureInformation}
    (h : sig ∈ (r.response ws).signatures) :
    ∃ ty ftv isOverloaded, sig = r.addSignature ws ty ftv isOverloaded := by
  simp only [Resolution.response, collectSignatures_eq] at h
  cases hg : ws.get r.followedId with
  | function ftv =>
    rw [hg] at h
    simp only [List.mem_singleton] at h
    exact ⟨_, _, _, h⟩
  | intersection parts =>
    rw [hg] at h
    simp only [List.mem_filterMap] at h
    obtain ⟨part, _, hp⟩ := h
    cases hgp : ws.get part with
    | function ftv =>
      rw [hgp] at hp
      simp only [Option.some.injEq] at hp
      exact ⟨_, _, _, hp.symm⟩
    | intersection _ => rw [hgp] at hp; cases hp
    | other _ => rw [hgp] at hp; cases hp
  | other tag =>
    rw [hg] at h
    simp at h

/-! ## Active parameter -/

/-- C1. Every signature of a present response carries as active parameter
`min(argCount, max(paramCount - 1, 0))`, computed over the integers, where
`argCount` is the number of arguments of the located call and `paramCount`
the number of parameters rendered for that signature. With three parameters,
no argument gives 0 and five arguments give 2. -/
theorem signature_activeParameter_clamped (ws : WorkspaceFolder) (params : SignatureHelpParams)
    (response : SignatureHelp) (h : signatureHelp ws params = .ok (some response)) :
    ∃ r, resolve ws params = some r ∧
      ∀ sig ∈ response.signatures,
        (sig.activeParameter : Int) =
            min (r.candidate.args.length : Int) (max ((sig.parameters.length : Int) - 1) 0) ∧
          (sig.parameters.length = 3 → r.candidate.args.length = 0 → sig.activeParameter = 0) ∧
          (sig.parameters.length = 3 → r.candidate.args.length = 5 → sig.activeParameter = 2) := by
  obtain ⟨r, hr, hresp⟩ := resolve_of_signatureHelp h
  refine ⟨r, hr, ?_⟩
  intro sig hsig
  rw [hresp] at hsig
  obtain ⟨ty, ftv, isOverloaded, rfl⟩ := mem_response hsig
  have key : (r.addSignature ws ty ftv isOverloaded).activeParameter =
      min r.candidate.args.length
        (if (r.addSignature ws ty ftv isOverloaded).parameters.length = 0 then 0
          else (r.addSignature ws ty ftv isOverloaded).parameters.length - 1) := rfl
  generalize (r.addSignature ws ty ftv isOverloaded).activeParameter = a at key
  generalize (r.addSignature ws ty ftv isOverloaded).parameters.length = n at key
  generalize r.candidate.args.length = c at key
  refine ⟨?_, ?_, ?_⟩
  · split at key <;> omega
  · intro hn hc; subst hn hc; simpa using key
  · intro hn hc; subst hn hc; simpa using key

theorem signature_activeParameter_clamped_witness :
    ∃ r, resolve exampleWorkspace (paramsAt 3) = some r ∧
      ∀ sig ∈ ((exampleResolution barCall 14).response exampleWorkspace).signatures,
        (sig.activeParameter : Int) =
            min (r.candidate.args.length : Int) (max ((sig.parameters.length : Int) - 1) 0) ∧
          (sig.parameters.length = 3 → r.candidate.args.length = 0 → sig.activeParameter = 0) ∧
          (sig.parameters.length = 3 → r.candidate.args.length = 5 → sig.activeParameter = 2) :=
  signature_activeParameter_clamped exampleWorkspace (paramsAt 3) _ rfl

/-! ## Parameter spans -/

/-- C2. A parameter of a built signature that is given a span `[start, stop)`
is the parameter at the same place of the rendered parameter list, the span
lies inside the label, its length is the length of that parameter's text, and
the slice of the label it delimits is exactly that text. -/
theorem parameter_span_roundtrip (ws : WorkspaceFolder) (module : Module) (scope : ScopePtr)
    (opts : ToStringNamedFunctionOpts) (candidate : AstExprCall)
    (documentationSymbol : Option Str) (activeParameter : Nat)
    (ty : TypeId) (ftv : FunctionTypeVar) (isOverloaded : Bool)
    (sig : SignatureInformation)
    (hsig : sig = addSignature ws module scope opts candidate documentationSymbol
      activeParameter ty ftv isOverloaded)
    (k : Nat) (p : ParameterInformation) (range : List Nat)
    (hp : sig.parameters[k]? = some p) (hrange : p.label = .offsets range) :
    ∃ idx argTy start stop,
      (renderedParameters ftv candidate)[k]? = some (idx, argTy) ∧
      range = [start, stop] ∧ start ≤ stop ∧ stop ≤ sig.label.length ∧
      stop - start = (labelString ws ftv idx argTy).length ∧
      substr sig.label start (stop - start) = labelString ws ftv idx argTy := by
  subst hsig
  rw [addSignature_parameters] at hp
  obtain ⟨t, d, ht, _, hl⟩ := spanSearch_getElem? _ _ _ _ _ hp
  rw [List.getElem?_map] at ht
  cases hk : (renderedParameters ftv candidate)[k]? with
  | none => rw [hk] at ht; cases ht
  | some arg =>
    rw [hk] at ht
    simp only [Option.map_some', Option.some.injEq, describeParameter, Prod.mk.injEq] at ht
    obtain ⟨ht, _⟩ := ht
    rcases hl with hl | ⟨s, hs1, _, hs3, hs4⟩
    · rw [hl] at hrange; cases hrange
    · rw [hs1] at hrange
      simp only [ParameterLabel.offsets.injEq] at hrange
      refine ⟨arg.1, arg.2, s, s + t.length, rfl, hrange.symm, by omega, hs3, ?_, ?_⟩
      · rw [ht]; omega
      · rw [ht]
        have e : s + t.length - s = t.length := by omega
        rw [e]; exact hs4

theorem parameter_span_roundtrip_witness :
    ∃ idx argTy start stop,
      (renderedParameters fooType fooCall)[1]? = some (idx, argTy) ∧
      [15, 24] = [start, stop] ∧ start ≤ stop ∧ stop ≤ fooLabel.length ∧
      stop - start = (labelString exampleWorkspace fooType idx argTy).length ∧
      substr fooLabel start (stop - start) = labelString exampleWorkspace fooType idx argTy :=
  parameter_span_roundtrip exampleWorkspace exampleModule 0 { hideTableKind := true } fooCall
    (some "pkg/f".toList) 2 10 fooType false
    ((exampleResolution fooCall 10).addSignature exampleWorkspace 10 fooType false) rfl 1
    { label := .offsets [15, 24],
      documentation := { kind := .Markdown, value := "pkg/f/param/1".toList } }
    [15, 24] rfl rfl

/-- C3. Within one built signature the spans follow the parameter order
without overlap: for parameters `i < j` that both have spans, the span of `i`
ends at or before the start of the span of `j`; so no character of the label
lies in both, and the two spans differ unless both are empty. -/
theorem parameter_spans_ordered (ws : WorkspaceFolder) (module : Module) (scope : ScopePtr)
    (opts : ToStringNamedFunctionOpts) (candidate : AstExprCall)
    (documentationSymbol : Option Str) (activeParameter : Nat)
    (ty : TypeId) (ftv : FunctionTypeVar) (isOverloaded : Bool)
    (sig : SignatureInformation)
    (hsig : sig = addSignature ws module scope opts candidate documentationSymbol
      activeParameter ty ftv isOverloaded)
    (i j : Nat) (pi pj : ParameterInformation) (si ei sj ej : Nat) (hij : i < j)
    (hi : sig.parameters[i]? = some pi) (hj : sig.parameters[j]? = some pj)
    (hli : pi.label = .offsets [si, ei]) (hlj : pj.label = .offsets [sj, ej]) :
    ei ≤ sj ∧
      (∀ k, ¬ (si ≤ k ∧ k < ei ∧ sj ≤ k ∧ k < ej)) ∧
      (si < ei ∨ sj < ej → (si, ei) ≠ (sj, ej)) := by
  subst hsig
  rw [addSignature_parameters] at hi hj
  have hord := spanSearch_ordered _ _ _ i j pi pj si ei sj ej hij hi hj hli hlj
  have hsi : si ≤ ei := by
    obtain ⟨t, d, _, _, hl⟩ := spanSearch_getElem? _ _ _ _ _ hi
    rcases hl with hl | ⟨s, hs1, _, _, _⟩
    · rw [hl] at hli; cases hli
    · rw [hs1] at hli
      simp only [ParameterLabel.offsets.injEq, List.cons.injEq, and_true] at hli
      omega
  refine ⟨hord, ?_, ?_⟩
  · intro k hk; omega
  · intro hne heq
    simp only [Prod.mk.injEq] at heq
    omega

theorem parameter_spans_ordered_witness :
    (10 : Nat) ≤ 12 ∧
      (∀ k, ¬ (4 ≤ k ∧ k < 10 ∧ 12 ≤ k ∧ k < 18)) ∧
      (4 < 10 ∨ 12 < 18 → ((4 : Nat), (10 : Nat)) ≠ (12, 18)) :=
  parameter_spans_ordered exampleWorkspace exampleModule 0 { hideTableKind := true }
    overloadedCall none 1 13 addType true
    (addSignature exampleWorkspace exampleModule 0 { hideTableKind := true }
      overloadedCall none 1 13 addType true) rfl 0 1
    { label := .offsets [4, 10], documentation := { kind := .Markdown, value := [] } }
    { label := .offsets [12, 18], documentation := { kind := .Markdown, value := [] } }
    4 10 12 18 (by decide) rfl rfl rfl rfl

/-! ## Self elision -/

/-- C4. The parameters rendered for a signature, read back as text and
documentation, are those of the declared parameters in declaration order,
without the one at index 0 exactly when the call uses method syntax and the
signature has a leading self (`hasSelf`, or a first parameter named "self");
otherwise all declared parameters are rendered. At most the first parameter
is left out. -/
theorem rendered_parameters_self_elision (ws : WorkspaceFolder) (module : Module)
    (scope : ScopePtr) (opts : ToStringNamedFunctionOpts) (candidate : AstExprCall)
    (documentationSymbol : Option Str) (activeParameter : Nat)
    (ty : TypeId) (ftv : FunctionTypeVar) (isOverloaded : Bool) :
    (addSignature ws module scope opts candidate documentationSymbol activeParameter
        ty ftv isOverloaded).parameters.map
      (fun p =>
        (parameterText
          (addSignature ws module scope opts candidate documentationSymbol activeParameter
            ty ftv isOverloaded).label p,
         p.documentation)) =
      (if candidate.self && leadingSelf ftv then (declaredParameters ftv).tail
        else declaredParameters ftv).map
        (describeParameter ws ftv
          (baseDocumentationSymbol ws documentationSymbol ty isOverloaded)) ∧
    (addSignature ws module scope opts candidate documentationSymbol activeParameter
        ty ftv isOverloaded).parameters.length =
      (if candidate.self && leadingSelf ftv then ftv.argTypes.length - 1
        else ftv.argTypes.length) := by
  rw [addSignature_parameters]
  refine ⟨?_, ?_⟩
  · rw [spanSearch_texts]; rfl
  · rw [spanSearch_length, List.length_map]
    unfold renderedParameters declaredParameters
    split <;> simp

/-! ## Documentation symbols -/

theorem findAux_cutAtFirst (sep : Str) :
    ∀ (s : Str) (i : Nat),
      cutAtFirst sep s =
        match findAux sep s i with
        | some j => s.take (j - i)
        | none => s := by
  intro s
  induction s with
  | nil => intro i; unfold findAux; split <;> simp [cutAtFirst]
  | cons c cs ih =>
    intro i
    unfold findAux cutAtFirst
    by_cases hp : sep.isPrefixOf (c :: cs) = true
    · simp [hp]
    · simp only [hp, Bool.false_eq_true, if_false]
      rw [ih (i + 1)]
      cases hf : findAux sep cs (i + 1) with
      | none => rfl
      | some j =>
        obtain ⟨k, hj, _⟩ := findAux_some sep cs (i + 1) j hf
        have e : j - i = (j - (i + 1)) + 1 := by omega
        simp only [e, List.take_succ_cons]

/-- Cutting with `find` and `substr`, as the code does, is cutting at the
first occurrence. -/
theorem find_substr_cutAtFirst (sep base : Str) :
    (match find base sep 0 with
      | some idx => substr base 0 idx
      | none => base) = cutAtFirst sep base := by
  rw [findAux_cutAtFirst sep base 0]
  simp [find, substr]

/-- The cut part is followed by the first occurrence of the separator, if the
separator occurs at all; otherwise nothing is cut. -/
theorem cutAtFirst_spec (sep base : Str) :
    (¬ sep <:+: base ∧ cutAtFirst sep base = base) ∨
      (∃ rest, base = cutAtFirst sep base ++ sep ++ rest ∧
        ∀ q r, base = q ++ sep ++ r → (cutAtFirst sep base).length ≤ q.length) := by
  rw [← find_substr_cutAtFirst]
  cases hf : find base sep 0 with
  | none =>
    left
    refine ⟨?_, rfl⟩
    rintro ⟨q, r, hqr⟩
    have hq : q.length ≤ base.length := by rw [← hqr]; simp
    apply find_none hf q.length (Nat.zero_le _) hq
    rw [← hqr, List.append_assoc, List.drop_left]
    exact List.prefix_append _ _
  | some idx =>
    right
    obtain ⟨_, h2, h3, h4⟩ := find_some hf
    have hidx : idx ≤ base.length := by omega
    have hpre : sep <+: base.drop idx := by
      rw [List.prefix_iff_eq_take]
      exact h3.symm
    obtain ⟨rest, hrest⟩ := hpre
    refine ⟨rest, ?_, ?_⟩
    · simp only [substr, List.drop_zero]
      rw [List.append_assoc, hrest, List.take_append_drop]
    · intro q r hqr
      simp only [substr, List.drop_zero, List.length_take]
      by_contra hlt
      have hq : q.length < idx := by omega
      apply h4 q.length (Nat.zero_le _) hq
      rw [hqr, List.append_assoc, List.drop_left]
      exact List.prefix_append _ _

theorem baseDocumentationSymbol_overloaded (ws : WorkspaceFolder) (base : Str) (ty : TypeId) :
    baseDocumentationSymbol ws (some base) ty true =
      some (cutAtFirst "/overload/".toList base ++ "/overload/".toList ++ ws.toString ty) := by
  unfold baseDocumentationSymbol
  simp only [if_true]
  rw [← find_substr_cutAtFirst]

theorem baseDocumentationSymbol_plain (ws : WorkspaceFolder) (symbol : Option Str)
    (ty : TypeId) : baseDocumentationSymbol ws symbol ty false = symbol := by
  unfold baseDocumentationSymbol
  cases symbol <;> simp

/-- C7. For an overloaded candidate with base symbol `base`, the documentation
symbol is `base` cut at its first occurrence of "/overload/" (all of `base`
when there is none), followed by "/overload/" and the printed type. With the
type printed as "(number) -> number", the bases "pkg/f" and "pkg/f/overload/X"
both give "pkg/f/overload/(number) -> number". -/
theorem overload_documentation_symbol (ws : WorkspaceFolder) (base : Str) (ty : TypeId) :
    baseDocumentationSymbol ws (some base) ty true =
        some (cutAtFirst "/overload/".toList base ++ "/overload/".toList ++ ws.toString ty) ∧
      ((¬ "/overload/".toList <:+: base ∧ cutAtFirst "/overload/".toList base = base) ∨
        (∃ rest, base = cutAtFirst "/overload/".toList base ++ "/overload/".toList ++ rest ∧
          ∀ q r, base = q ++ "/overload/".toList ++ r →
            (cutAtFirst "/overload/".toList base).length ≤ q.length)) ∧
      (ws.toString ty = "(number) -> number".toList →
        baseDocumentationSymbol ws (some "pkg/f".toList) ty true =
            some "pkg/f/overload/(number) -> number".toList ∧
          baseDocumentationSymbol ws (some "pkg/f/overload/X".toList) ty true =
            some "pkg/f/overload/(number) -> number".toList) := by
  refine ⟨baseDocumentationSymbol_overloaded ws base ty, cutAtFirst_spec _ base, ?_⟩
  intro hty
  rw [baseDocumentationSymbol_overloaded, baseDocumentationSymbol_overloaded, hty]
  constructor <;> decide

theorem overload_documentation_symbol_witness :
    baseDocumentationSymbol exampleWorkspace (some "pkg/f".toList) 99 true =
        some "pkg/f/overload/(number) -> number".toList ∧
      baseDocumentationSymbol exampleWorkspace (some "pkg/f/overload/X".toList) 99 true =
        some "pkg/f/overload/(number) -> number".toList :=
  (overload_documentation_symbol exampleWorkspace "pkg/f".toList 99).2.2 (by decide)

/-! ## Overloads -/

/-- The documentation of a built signature is the store's answer for its
documentation symbol, when it has one. -/
theorem addSignature_documentation (ws : WorkspaceFolder) (module : Module) (scope : ScopePtr)
    (opts : ToStringNamedFunctionOpts) (candidate : AstExprCall)
    (documentationSymbol : Option Str) (activeParameter : Nat)
    (ty : TypeId) (ftv : FunctionTypeVar) (isOverloaded : Bool) (symbol : Str)
    (h : baseDocumentationSymbol ws documentationSymbol ty isOverloaded = some symbol) :
    (addSignature ws module scope opts candidate documentationSymbol activeParameter
        ty ftv isOverloaded).documentation =
      { kind := .Markdown, value := ws.printDocumentation symbol } := by
  simp [addSignature, signatureDocumentation, h]

/-- C5. When the followed callee type is an intersection of `N` function
types, the response is present and has exactly `N` signatures; the `i`-th one
is the signature `addSignature` builds from the `i`-th part with
`isOverloaded` set, and when the call has a base documentation symbol its
documentation is looked up under that symbol cut at "/overload/" and extended
by "/overload/" and the printed type of the part. -/
theorem intersection_signatures (ws : WorkspaceFolder) (params : SignatureHelpParams)
    (r : Resolution) (parts : List TypeId)
    (hr : resolve ws params = some r)
    (hparts : ws.get r.followedId = .intersection parts)
    (hfun : ∀ part ∈ parts, ∃ ftv, ws.get part = .function ftv) :
    ∃ response : SignatureHelp, signatureHelp ws params = .ok (some response) ∧
      response.signatures.length = parts.length ∧
      ∀ (i : Nat) (part : TypeId), parts[i]? = some part →
        ∃ ftv, ws.get part = .function ftv ∧
          response.signatures[i]? = some (r.addSignature ws part ftv true) ∧
          ∀ base, r.documentationSymbol = some base →
            (r.addSignature ws part ftv true).documentation =
              { kind := .Markdown,
                value := ws.printDocumentation
                  (cutAtFirst "/overload/".toList base ++ "/overload/".toList ++
                    ws.toString part) } := by
  refine ⟨r.response ws, signatureHelp_of_resolve hr, ?_⟩
  have hsigs : (r.response ws).signatures =
      parts.filterMap (fun part =>
        match ws.get part with
        | .function ftv => some (r.addSignature ws part ftv true)
        | _ => none) := by
    simp only [Resolution.response, collectSignatures_eq, hparts]
    rfl
  rw [hsigs]
  clear hsigs hparts hr
  induction parts with
  | nil => simp
  | cons head rest ih =>
    obtain ⟨ftvHead, hhead⟩ := hfun head (by simp)
    obtain ⟨ihlen, ihget⟩ := ih (fun part hpart => hfun part (by simp [hpart]))
    simp only [List.filterMap_cons, hhead]
    refine ⟨by simp [ihlen], ?_⟩
    intro i part hi
    cases i with
    | zero =>
      simp only [List.getElem?_cons_zero, Option.some.injEq] at hi
      subst hi
      refine ⟨ftvHead, hhead, List.getElem?_cons_zero, ?_⟩
      intro base hbase
      apply addSignature_documentation
      rw [hbase, baseDocumentationSymbol_overloaded]
    | succ i =>
      simp only [List.getElem?_cons_succ] at hi
      simpa using ihget i part hi

theorem intersection_signatures_witness :
    ∃ response : SignatureHelp, signatureHelp exampleWorkspace (paramsAt 4) = .ok (some response) ∧
      response.signatures.length = [10, 13].length ∧
      ∀ (i : Nat) (part : TypeId), [10, 13][i]? = some part →
        ∃ ftv, exampleWorkspace.get part = .function ftv ∧
          response.signatures[i]? =
            some ((exampleResolution overloadedCall 11).addSignature exampleWorkspace
              part ftv true) ∧
          ∀ base, (exampleResolution overloadedCall 11).documentationSymbol = some base →
            ((exampleResolution overloadedCall 11).addSignature exampleWorkspace
                part ftv true).documentation =
              { kind := .Markdown,
                value := exampleWorkspace.printDocumentation
                  (cutAtFirst "/overload/".toList base ++ "/overload/".toList ++
                    exampleWorkspace.toString part) } :=
  intersection_signatures exampleWorkspace (paramsAt 4) (exampleResolution overloadedCall 11)
    [10, 13] rfl rfl (by
      intro part hpart
      simp only [List.mem_cons, List.mem_singleton, List.not_mem_nil, or_false] at hpart
      rcases hpart with rfl | rfl
      · exact ⟨fooType, rfl⟩
      · exact ⟨addType, rfl⟩)

/-- C6. When the followed callee type is a single function type, the response
is present and has exactly one signature, the one `addSignature` builds from
that type with `isOverloaded` unset: its documentation symbol is the base
symbol unchanged, under which its documentation is looked up. -/
theorem single_function_signature (ws : WorkspaceFolder) (params : SignatureHelpParams)
    (r : Resolution) (ftv : FunctionTypeVar)
    (hr : resolve ws params = some r)
    (hfun : ws.get r.followedId = .function ftv) :
    ∃ response : SignatureHelp, signatureHelp ws params = .ok (some response) ∧
      response.signatures = [r.addSignature ws r.followedId ftv false] ∧
      baseDocumentationSymbol ws r.documentationSymbol r.followedId false
        = r.documentationSymbol ∧
      ∀ base, r.documentationSymbol = some base →
        (r.addSignature ws r.followedId ftv false).documentation =
          { kind := .Markdown, value := ws.printDocumentation base } := by
  refine ⟨r.response ws, signatureHelp_of_resolve hr, ?_, baseDocumentationSymbol_plain _ _ _, ?_⟩
  · simp only [Resolution.response, collectSignatures_eq, hfun]
    rfl
  · intro base hbase
    apply addSignature_documentation
    rw [hbase, baseDocumentationSymbol_plain]

theorem single_function_signature_witness :
    ∃ response : SignatureHelp, signatureHelp exampleWorkspace (paramsAt 1) = .ok (some response) ∧
      response.signatures =
        [(exampleResolution fooCall 10).addSignature exampleWorkspace 10 fooType false] ∧
      baseDocumentationSymbol exampleWorkspace (some "pkg/f".toList) 10 false
        = some "pkg/f".toList ∧
      ∀ base, some "pkg/f".toList = some base →
        ((exampleResolution fooCall 10).addSignature exampleWorkspace 10 fooType
            false).documentation =
          { kind := .Markdown, value := exampleWorkspace.printDocumentation base } :=
  single_function_signature exampleWorkspace (paramsAt 1) (exampleResolution fooCall 10)
    fooType rfl rfl

/-! ## Unmanaged documents -/

/-- C8, as stated, fails: with signature help disabled a request for an
unmanaged document is answered with an absent response, not an error. -/
theorem unmanaged_document_disabled_counterexample :
    disabledWorkspace.getTextDocument
        (disabledWorkspace.getModuleName unmanagedParams.textDocument.uri) = none ∧
      signatureHelp disabledWorkspace unmanagedParams = .ok none :=
  ⟨by decide, rfl⟩

/-- C8, amended. With signature help enabled, a request for a document
without a managed text document fails with the `RequestFailed` error "No
managed text document for" and the module name; so no response, absent or
empty, is returned. -/
theorem unmanaged_document_fails (ws : WorkspaceFolder) (params : SignatureHelpParams)
    (henabled : ws.getConfiguration.signatureHelp.enabled = true)
    (hdoc : ws.getTextDocument (ws.getModuleName params.textDocument.uri) = none) :
    signatureHelp ws params =
        .error (.exception
          { code := .RequestFailed,
            message := "No managed text document for ".toList ++
              ws.getModuleName params.textDocument.uri }) ∧
      ∀ response, signatureHelp ws params ≠ .ok response := by
  have h : signatureHelp ws params =
      .error (.exception
        { code := .RequestFailed,
          message := "No managed text document for ".toList ++
            ws.getModuleName params.textDocument.uri }) := by
    unfold signatureHelp
    simp [henabled, hdoc]
  refine ⟨h, ?_⟩
  intro response hresp
  rw [h] at hresp
  cases hresp

theorem unmanaged_document_fails_witness :
    signatureHelp exampleWorkspace unmanagedParams =
        .error (.exception
          { code := .RequestFailed,
            message := "No managed text document for ".toList ++ "game/bar".toList }) ∧
      ∀ response, signatureHelp exampleWorkspace unmanagedParams ≠ .ok response :=
  unmanaged_document_fails exampleWorkspace unmanagedParams rfl (by decide)

/-! ## Call-site selection -/

/-- The selection of lines 30-38 is the rule on the two innermost nodes. -/
theorem locateCandidate_eq_select (ancestry : List AstNode) :
    locateCandidate ancestry = selectInnermostTwo ancestry.reverse := by
  rcases List.eq_nil_or_concat ancestry with rfl | ⟨front, back, rfl⟩
  · rfl
  · rw [List.concat_eq_append]
    have hlast : (front ++ [back]).getLast? = some back := by simp
    have hrev : (front ++ [back]).reverse = back :: front.reverse := by simp
    unfold locateCandidate
    rw [hlast, hrev]
    cases back with
    | exprCall call => simp [AstNode.asExprCall, selectInnermostTwo]
    | other addr =>
      simp only [AstNode.asExprCall]
      rcases List.eq_nil_or_concat front with rfl | ⟨front2, second, rfl⟩
      · simp [selectInnermostTwo]
      · rw [List.concat_eq_append]
        have hlen : (front2 ++ [second] ++ [AstNode.other addr]).length - 2
            = front2.length := by simp
        have hget : (front2 ++ [second] ++ [AstNode.other addr]).get? front2.length
            = some second := by
          rw [List.append_assoc, List.get?_eq_getElem?, List.getElem?_append_right (le_refl _)]
          simp
        have hge : (front2 ++ [second] ++ [AstNode.other addr]).length ≥ 2 := by simp
        have hrev2 : (front2 ++ [second]).reverse = second :: front2.reverse := by simp
        rw [hlen, hget, if_pos hge, hrev2]
        cases second <;> simp [AstNode.asExprCall, selectInnermostTwo]

/-- When no call is located, the response is absent. -/
theorem signatureHelp_no_candidate (ws : WorkspaceFolder) (params : SignatureHelpParams)
    (textDocument : TextDocument) (sourceModule : SourceModule) (module : Module)
    (henabled : ws.getConfiguration.signatureHelp.enabled = true)
    (hdoc : ws.getTextDocument (ws.getModuleName params.textDocument.uri) = some textDocument)
    (hsource :
      (ws.check (ws.getModuleName params.textDocument.uri)
        { retainFullTypeGraphs := true, forAutocomplete := true }).getSourceModule
        (ws.getModuleName params.textDocument.uri) = some sourceModule)
    (hmodule :
      (ws.check (ws.getModuleName params.textDocument.uri)
        { retainFullTypeGraphs := true, forAutocomplete := true }).getModule
        (ws.getModuleName params.textDocument.uri) = some module)
    (hnone :
      locateCandidate
        (ws.findAstAncestryOfPosition sourceModule
          (ws.convertPosition textDocument params.position)) = none) :
    signatureHelp ws params = .ok none := by
  unfold signatureHelp
  simp [henabled, hdoc, hsource, hmodule, hnone]

/-- C9. Reading the ancestry innermost first, the selected call is the
innermost node if that is a call; otherwise the second-innermost node if
there is one and it is a call; otherwise nothing, whatever lies further out.
When the ancestry of a request has been computed (signature help enabled,
document managed, source module and module present) and nothing is selected,
the response is absent. -/
theorem call_site_selection :
    (∀ ancestry : List AstNode,
      locateCandidate ancestry = selectInnermostTwo ancestry.reverse) ∧
    (∀ (outer : List AstNode) (call : AstExprCall),
      locateCandidate (outer ++ [.exprCall call]) = some call) ∧
    (∀ (outer : List AstNode) (call : AstExprCall) (addr : Nat),
      locateCandidate (outer ++ [.exprCall call, .other addr]) = some call) ∧
    (∀ (outer : List AstNode) (addr1 addr2 : Nat),
      locateCandidate (outer ++ [.other addr1, .other addr2]) = none) ∧
    (∀ addr : Nat, locateCandidate [.other addr] = none) ∧
    locateCandidate [] = none ∧
    (∀ (ws : WorkspaceFolder) (params : SignatureHelpParams) (textDocument : TextDocument)
      (sourceModule : SourceModule) (module : Module),
      ws.getConfiguration.signatureHelp.enabled = true →
      ws.getTextDocument (ws.getModuleName params.textDocument.uri) = some textDocument →
      (ws.check (ws.getModuleName params.textDocument.uri)
        { retainFullTypeGraphs := true, forAutocomplete := true }).getSourceModule
        (ws.getModuleName params.textDocument.uri) = some sourceModule →
      (ws.check (ws.getModuleName params.textDocument.uri)
        { retainFullTypeGraphs := true, forAutocomplete := true }).getModule
        (ws.getModuleName params.textDocument.uri) = some module →
      locateCandidate
        (ws.findAstAncestryOfPosition sourceModule
          (ws.convertPosition textDocument params.position)) = none →
      signatureHelp ws params = .ok none) := by
  refine ⟨locateCandidate_eq_select, ?_, ?_, ?_, ?_, rfl, signatureHelp_no_candidate⟩
  · intro outer call
    rw [locateCandidate_eq_select]; simp [selectInnermostTwo]
  · intro outer call addr
    rw [locateCandidate_eq_select]; simp [selectInnermostTwo]
  · intro outer addr1 addr2
    rw [locateCandidate_eq_select]; simp [selectInnermostTwo]
  · intro addr; rfl

theorem call_site_selection_witness :
    signatureHelp exampleWorkspace (paramsAt 9) = .ok none :=
  call_site_selection.2.2.2.2.2.2 exampleWorkspace (paramsAt 9) { addr := 0 } { addr := 0 }
    exampleModule rfl rfl rfl rfl (by decide)

/-- The nodes found by `findSome?` past a run of nodes that are not calls. -/
theorem findSome?_skip (inner : List AstNode) (rest : List AstNode)
    (hinner : ∀ node ∈ inner, node.asExprCall = none) :
    (inner.reverse ++ rest).findSome? AstNode.asExprCall = rest.findSome? AstNode.asExprCall := by
  rw [List.findSome?_append]
  have : inner.reverse.findSome? AstNode.asExprCall = none := by
    rw [List.findSome?_eq_none_iff]
    intro node hnode
    exact hinner node (List.mem_reverse.mp hnode)
  rw [this]; rfl

/-- What is selected is the innermost call of the ancestry. -/
theorem locateCandidate_innermost (ancestry : List AstNode) (found : AstExprCall)
    (h : locateCandidate ancestry = some found) : innermostCall ancestry = some found := by
  rw [locateCandidate_eq_select] at h
  unfold innermostCall
  generalize ancestry.reverse = l at h
  match l, h with
  | .exprCall call :: _, h =>
    simp only [selectInnermostTwo, Option.some.injEq] at h
    simp [List.findSome?, AstNode.asExprCall, h]
  | .other _ :: .exprCall call :: _, h =>
    simp only [selectInnermostTwo, Option.some.injEq] at h
    simp [List.findSome?, AstNode.asExprCall, h]

/-- C10, as stated, fails: in the ancestry of a position two nodes below the
call `foo(...)`, that call is the innermost enclosing call, yet nothing is
selected. -/
theorem innermost_call_counterexample :
    innermostCall [.other 0, .exprCall fooCall, .other 1, .other 2] = some fooCall ∧
      locateCandidate [.other 0, .exprCall fooCall, .other 1, .other 2] = none := by
  decide

/-- C10, amended. Let `call` be the innermost enclosing call of an ancestry,
with only non-call nodes `inner` below it. If `inner` has at most one node,
that call is selected; if it has two or more, nothing is selected. Whenever a
call is selected, it is the innermost enclosing call, never one further out. -/
theorem innermost_call_selected (outer inner : List AstNode) (call : AstExprCall)
    (hinner : ∀ node ∈ inner, node.asExprCall = none) :
    innermostCall (outer ++ .exprCall call :: inner) = some call ∧
      (inner.length ≤ 1 → locateCandidate (outer ++ .exprCall call :: inner) = some call) ∧
      (2 ≤ inner.length → locateCandidate (outer ++ .exprCall call :: inner) = none) ∧
      (∀ found, locateCandidate (outer ++ .exprCall call :: inner) = some found →
        found = call) := by
  have hinnermost : innermostCall (outer ++ .exprCall call :: inner) = some call := by
    unfold innermostCall
    have hrev : (outer ++ .exprCall call :: inner).reverse
        = inner.reverse ++ (.exprCall call :: outer.reverse) := by simp
    rw [hrev, findSome?_skip inner _ hinner]
    simp [List.findSome?, AstNode.asExprCall]
  refine ⟨hinnermost, ?_, ?_, ?_⟩
  · intro hlen
    match inner, hinner, hlen with
    | [], _, _ =>
      rw [locateCandidate_eq_select]; simp [selectInnermostTwo]
    | [node], hnode, _ =>
      cases node with
      | exprCall other => simpa [AstNode.asExprCall] using hnode (.exprCall other) (by simp)
      | other addr =>
        rw [locateCandidate_eq_select]; simp [selectInnermostTwo]
  · intro hlen
    rw [locateCandidate_eq_select]
    rcases List.eq_nil_or_concat inner with rfl | ⟨inner1, last, rfl⟩
    · simp at hlen
    · rcases List.eq_nil_or_concat inner1 with rfl | ⟨inner2, second, rfl⟩
      · simp at hlen
      · have hlast := hinner last (by simp)
        have hsecond := hinner second (by simp)
        cases last with
        | exprCall other => simp [AstNode.asExprCall] at hlast
        | other addr1 =>
          cases second with
          | exprCall other => simp [AstNode.asExprCall] at hsecond
          | other addr2 => simp [selectInnermostTwo]
  · intro found hfound
    have := locateCandidate_innermost _ _ hfound
    rw [hinnermost] at this
    exact (Option.some.inj this).symm

theorem innermost_call_selected_witness :
    innermostCall ([.other 0] ++ .exprCall barCall :: [.other 1]) = some barCall ∧
      ([AstNode.other 1].length ≤ 1 →
        locateCandidate ([.other 0] ++ .exprCall barCall :: [.other 1]) = some barCall) ∧
      (2 ≤ [AstNode.other 1].length →
        locateCandidate ([.other 0] ++ .exprCall barCall :: [.other 1]) = none) ∧
      (∀ found, locateCandidate ([.other 0] ++ .exprCall barCall :: [.other 1]) = some found →
        found = barCall) :=
  innermost_call_selected [.other 0] [.other 1] barCall (by decide)

/-! ## The assembled response -/

/-- C11. When a call is located and its callee has a recorded type whose
followed form is neither a function nor an intersection, the response is
present and its signature list is empty; it is neither absent nor an error. -/
theorem non_callable_empty_signatures (ws : WorkspaceFolder) (params : SignatureHelpParams)
    (r : Resolution) (tag : Nat)
    (hr : resolve ws params = some r)
    (hother : ws.get r.followedId = .other tag) :
    signatureHelp ws params =
      .ok (some
        { signatures := [], activeSignature := 0, activeParameter := r.candidate.args.length }) := by
  rw [signatureHelp_of_resolve hr]
  simp only [Resolution.response, collectSignatures_eq, hother]

theorem non_callable_empty_signatures_witness :
    signatureHelp exampleWorkspace (paramsAt 5) =
      .ok (some
        { signatures := [], activeSignature := 0,
          activeParameter := (exampleResolution tableCall 15).candidate.args.length }) :=
  non_callable_empty_signatures exampleWorkspace (paramsAt 5) (exampleResolution tableCall 15) 0
    rfl rfl

/-- C12. A present response has active signature 0, as top-level active
parameter the number of argument expressions of the located call, whatever
the parameter counts of the signatures, and as signatures those of the
followed callee type in the order they were built: the one of a function, or
those of the function parts of an intersection in the order of the parts.
Against a function with two rendered parameters there is one signature; a
call with one argument expression (a second slot being empty) has top-level
active parameter 1, a call with two argument expressions has top-level active
parameter 2, and the signature's own active parameter is 1 in both cases. -/
theorem response_assembly (ws : WorkspaceFolder) (params : SignatureHelpParams)
    (response : SignatureHelp) (h : signatureHelp ws params = .ok (some response)) :
    ∃ r, resolve ws params = some r ∧
      response.activeSignature = 0 ∧
      response.activeParameter = r.candidate.args.length ∧
      response.signatures =
        (match ws.get r.followedId with
          | .function ftv => [r.addSignature ws r.followedId ftv false]
          | .intersection parts =>
            parts.filterMap (fun part =>
              match ws.get part with
              | .function candidateFunctionType =>
                some (r.addSignature ws part candidateFunctionType true)
              | _ => none)
          | .other _ => []) ∧
      ∀ ftv, ws.get r.followedId = .function ftv →
        (r.addSignature ws r.followedId ftv false).parameters.length = 2 →
          response.signatures.length = 1 ∧
          (r.candidate.args.length = 1 →
            response.activeParameter = 1 ∧
              ∀ sig ∈ response.signatures, sig.activeParameter = 1) ∧
          (r.candidate.args.length = 2 →
            response.activeParameter = 2 ∧
              ∀ sig ∈ response.signatures, sig.activeParameter = 1) := by
  obtain ⟨r, hr, hresp⟩ := resolve_of_signatureHelp h
  have hsigs : response.signatures =
      (match ws.get r.followedId with
        | .function ftv => [r.addSignature ws r.followedId ftv false]
        | .intersection parts =>
          parts.filterMap (fun part =>
            match ws.get part with
            | .function candidateFunctionType =>
              some (r.addSignature ws part candidateFunctionType true)
            | _ => none)
        | .other _ => []) := by
    rw [hresp]
    simp only [Resolution.response, collectSignatures_eq]
    rfl
  refine ⟨r, hr, by rw [hresp]; rfl, by rw [hresp]; rfl, hsigs, ?_⟩
  intro ftv hfun hlen
  rw [hfun] at hsigs
  have hact : (r.addSignature ws r.followedId ftv false).activeParameter =
      min r.candidate.args.length
        (if (r.addSignature ws r.followedId ftv false).parameters.length = 0 then 0
          else (r.addSignature ws r.followedId ftv false).parameters.length - 1) := rfl
  rw [hlen] at hact
  have hap : response.activeParameter = r.candidate.args.length := by rw [hresp]; rfl
  rw [hsigs]
  refine ⟨rfl, ?_, ?_⟩
  · intro hargs
    refine ⟨by rw [hap, hargs], ?_⟩
    intro sig hsig
    rw [List.mem_singleton.mp hsig, hact, hargs]; rfl
  · intro hargs
    refine ⟨by rw [hap, hargs], ?_⟩
    intro sig hsig
    rw [List.mem_singleton.mp hsig, hact, hargs]; rfl

theorem response_assembly_witness :
    ∃ r, resolve exampleWorkspace (paramsAt 1) = some r ∧
      ((exampleResolution fooCall 10).response exampleWorkspace).activeSignature = 0 ∧
      ((exampleResolution fooCall 10).response exampleWorkspace).activeParameter
        = r.candidate.args.length ∧
      ((exampleResolution fooCall 10).response exampleWorkspace).signatures =
        (match exampleWorkspace.get r.followedId with
          | .function ftv => [r.addSignature exampleWorkspace r.followedId ftv false]
          | .intersection parts =>
            parts.filterMap (fun part =>
              match exampleWorkspace.get part with
              | .function candidateFunctionType =>
                some (r.addSignature exampleWorkspace part candidateFunctionType true)
              | _ => none)
          | .other _ => []) ∧
      ∀ ftv, exampleWorkspace.get r.followedId = .function ftv →
        (r.addSignature exampleWorkspace r.followedId ftv false).parameters.length = 2 →
          ((exampleResolution fooCall 10).response exampleWorkspace).signatures.length = 1 ∧
          (r.candidate.args.length = 1 →
            ((exampleResolution fooCall 10).response exampleWorkspace).activeParameter = 1 ∧
              ∀ sig ∈ ((exampleResolution fooCall 10).response exampleWorkspace).signatures,
                sig.activeParameter = 1) ∧
          (r.candidate.args.length = 2 →
            ((exampleResolution fooCall 10).response exampleWorkspace).activeParameter = 2 ∧
              ∀ sig ∈ ((exampleResolution fooCall 10).response exampleWorkspace).signatures,
                sig.activeParameter = 1) :=
  response_assembly exampleWorkspace (paramsAt 1) _ rfl

/-- C18. When the followed callee type is an intersection, the signatures of
the response are those built from the parts that are function types, in the
order of the parts; the other parts are passed over, and there are as many
signatures as function parts. -/
theorem intersection_function_parts (ws : WorkspaceFolder) (params : SignatureHelpParams)
    (r : Resolution) (parts : List TypeId)
    (hr : resolve ws params = some r)
    (hparts : ws.get r.followedId = .intersection parts) :
    ∃ response : SignatureHelp, signatureHelp ws params = .ok (some response) ∧
      response.signatures =
        parts.filterMap (fun part =>
          match ws.get part with
          | .function ftv => some (r.addSignature ws part ftv true)
          | _ => none) ∧
      response.signatures.length =
        (parts.filter (fun part =>
          match ws.get part with
          | .function _ => true
          | _ => false)).length := by
  have hsigs : (r.response ws).signatures =
      parts.filterMap (fun part =>
        match ws.get part with
        | .function ftv => some (r.addSignature ws part ftv true)
        | _ => none) := by
    simp only [Resolution.response, collectSignatures_eq, hparts]
    rfl
  refine ⟨r.response ws, signatureHelp_of_resolve hr, hsigs, ?_⟩
  rw [hsigs]
  clear hsigs hparts
  induction parts with
  | nil => rfl
  | cons part rest ih =>
    simp only [List.filterMap_cons, List.filter_cons]
    cases ws.get part <;> simp [ih]

theorem intersection_function_parts_witness :
    ∃ response : SignatureHelp,
      signatureHelp exampleWorkspace (paramsAt 7) = .ok (some response) ∧
      response.signatures =
        [10, 15, 13].filterMap (fun part =>
          match exampleWorkspace.get part with
          | .function ftv =>
            some ((exampleResolution mixedCall 16).addSignature exampleWorkspace part ftv true)
          | _ => none) ∧
      response.signatures.length =
        ([10, 15, 13].filter (fun part =>
          match exampleWorkspace.get part with
          | .function _ => true
          | _ => false)).length :=
  intersection_function_parts exampleWorkspace (paramsAt 7) (exampleResolution mixedCall 16)
    [10, 15, 13] rfl rfl

/-! ## Disabled signature help -/

/-- C20. With signature help disabled in the client configuration, every
request gets an absent response, whatever the document, the position and the
analysis results are; no error is raised. -/
theorem disabled_gives_absent (ws : WorkspaceFolder) (params : SignatureHelpParams)
    (hdisabled : ws.getConfiguration.signatureHelp.enabled = false) :
    signatureHelp ws params = .ok none := by
  unfold signatureHelp
  simp [hdisabled]

theorem disabled_gives_absent_witness :
    signatureHelp disabledWorkspace (paramsAt 1) = .ok none :=
  disabled_gives_absent disabledWorkspace (paramsAt 1) rfl

/-! ## Documentation -/

/-- A candidate has a documentation symbol exactly when the call has one. -/
theorem baseDocumentationSymbol_eq_none (ws : WorkspaceFolder) (documentationSymbol : Option Str)
    (ty : TypeId) (isOverloaded : Bool) :
    baseDocumentationSymbol ws documentationSymbol ty isOverloaded = none ↔
      documentationSymbol = none := by
  unfold baseDocumentationSymbol
  cases documentationSymbol with
  | none => simp
  | some base => cases isOverloaded <;> simp

/-- C13. If a candidate has a documentation symbol, its documentation is the
store's answer for that symbol, whatever the definition and its comment are,
hence empty when the store answers with nothing. A candidate has no symbol
only if the call has none; then the documentation is the comment of the
definition when the definition and its module name are known, and empty
otherwise. -/
theorem candidate_documentation (ws : WorkspaceFolder) (module : Module) (scope : ScopePtr)
    (opts : ToStringNamedFunctionOpts) (candidate : AstExprCall)
    (documentationSymbol : Option Str) (activeParameter : Nat)
    (ty : TypeId) (ftv : FunctionTypeVar) (isOverloaded : Bool) :
    (∀ symbol, baseDocumentationSymbol ws documentationSymbol ty isOverloaded = some symbol →
      (addSignature ws module scope opts candidate documentationSymbol activeParameter
          ty ftv isOverloaded).documentation =
        { kind := .Markdown, value := ws.printDocumentation symbol } ∧
      (∀ comments : ModuleName → Location → Str,
        (addSignature { ws with printMoonwaveDocumentation := comments } module scope opts
            candidate documentationSymbol activeParameter ty ftv isOverloaded).documentation =
          (addSignature ws module scope opts candidate documentationSymbol activeParameter
            ty ftv isOverloaded).documentation) ∧
      (ws.printDocumentation symbol = [] →
        (addSignature ws module scope opts candidate documentationSymbol activeParameter
          ty ftv isOverloaded).documentation.value = [])) ∧
    (baseDocumentationSymbol ws documentationSymbol ty isOverloaded = none ↔
      documentationSymbol = none) ∧
    (documentationSymbol = none →
      (∀ definition name, ftv.definition = some definition →
        definition.definitionModuleName = some name →
        (addSignature ws module scope opts candidate documentationSymbol activeParameter
            ty ftv isOverloaded).documentation =
          { kind := .Markdown,
            value := ws.printMoonwaveDocumentation name definition.definitionLocation }) ∧
      (∀ definition, ftv.definition = some definition →
        definition.definitionModuleName = none →
        (addSignature ws module scope opts candidate documentationSymbol activeParameter
            ty ftv isOverloaded).documentation = { kind := .Markdown, value := [] }) ∧
      (ftv.definition = none →
        (addSignature ws module scope opts candidate documentationSymbol activeParameter
            ty ftv isOverloaded).documentation = { kind := .Markdown, value := [] })) := by
  refine ⟨?_, baseDocumentationSymbol_eq_none ws documentationSymbol ty isOverloaded, ?_⟩
  · intro symbol hsymbol
    have hdoc := addSignature_documentation ws module scope opts candidate documentationSymbol
      activeParameter ty ftv isOverloaded symbol hsymbol
    refine ⟨hdoc, ?_, ?_⟩
    · intro comments
      rw [hdoc]
      exact addSignature_documentation { ws with printMoonwaveDocumentation := comments }
        module scope opts candidate documentationSymbol activeParameter ty ftv isOverloaded
        symbol hsymbol
    · intro hempty
      rw [hdoc, hempty]
  · intro hnone
    subst hnone
    refine ⟨?_, ?_, ?_⟩
    · intro definition name hdef hname
      simp [addSignature, signatureDocumentation, baseDocumentationSymbol, hdef, hname]
    · intro definition hdef hname
      simp [addSignature, signatureDocumentation, baseDocumentationSymbol, hdef, hname]
    · intro hdef
      simp [addSignature, signatureDocumentation, baseDocumentationSymbol, hdef]

theorem candidate_documentation_witness :
    (addSignature exampleWorkspace exampleModule 0 { hideTableKind := true } fooCall
        none 2 10 definedType false).documentation =
      { kind := .Markdown,
        value := exampleWorkspace.printMoonwaveDocumentation "game/foo".toList noLocation } :=
  (candidate_documentation exampleWorkspace exampleModule 0 { hideTableKind := true } fooCall
    none 2 10 definedType false).2.2 rfl |>.1 _ _ rfl rfl

/-- The index of the parameter rendered at place `k`: `k` itself, or `k + 1`
after an omitted self. -/
theorem renderedParameters_getElem? (ftv : FunctionTypeVar) (candidate : AstExprCall)
    (k idx : Nat) (argTy : TypeId)
    (h : (renderedParameters ftv candidate)[k]? = some (idx, argTy)) :
    idx = k + (if candidate.self && leadingSelf ftv then 1 else 0) ∧
      ftv.argTypes[idx]? = some argTy := by
  unfold renderedParameters declaredParameters at h
  split at h
  · rename_i hself
    rw [List.getElem?_tail] at h
    have hmem := List.mem_iff_getElem?.mpr ⟨_, h⟩
    rw [List.enum, List.mk_mem_enumFrom_iff_le_and_getElem?_sub] at hmem
    rw [List.enum, List.getElem?_enumFrom] at h
    cases hk : ftv.argTypes[k + 1]? with
    | none => rw [hk] at h; cases h
    | some a =>
      rw [hk] at h
      simp only [Option.map_some', Option.some.injEq, Prod.mk.injEq] at h
      obtain ⟨h1, h2⟩ := h
      subst h2
      refine ⟨by simp [hself]; omega, ?_⟩
      have e : idx = k + 1 := by omega
      rw [e]; exact hk
  · rename_i hself
    rw [List.enum, List.getElem?_enumFrom] at h
    cases hk : ftv.argTypes[k]? with
    | none => rw [hk] at h; cases h
    | some a =>
      rw [hk] at h
      simp only [Option.map_some', Option.some.injEq, Prod.mk.injEq] at h
      obtain ⟨h1, h2⟩ := h
      subst h2
      refine ⟨by simp [hself]; omega, ?_⟩
      have e : idx = k := by omega
      rw [e]; exact hk

/-- C14. The parameter rendered at place `k` of a built signature is the
declared parameter at index `k`, or `k + 1` after an omitted self. If the
candidate has a documentation symbol, the documentation of that parameter is
the store's answer for the symbol followed by "/param/" and the declared
index in decimal; if it has none, the documentation is empty. -/
theorem parameter_documentation (ws : WorkspaceFolder) (module : Module) (scope : ScopePtr)
    (opts : ToStringNamedFunctionOpts) (candidate : AstExprCall)
    (documentationSymbol : Option Str) (activeParameter : Nat)
    (ty : TypeId) (ftv : FunctionTypeVar) (isOverloaded : Bool)
    (k : Nat) (p : ParameterInformation)
    (hp : (addSignature ws module scope opts candidate documentationSymbol activeParameter
      ty ftv isOverloaded).parameters[k]? = some p) :
    ∃ idx argTy,
      idx = k + (if candidate.self && leadingSelf ftv then 1 else 0) ∧
      ftv.argTypes[idx]? = some argTy ∧
      (∀ symbol, baseDocumentationSymbol ws documentationSymbol ty isOverloaded = some symbol →
        p.documentation =
          { kind := .Markdown,
            value := ws.printDocumentation
              (symbol ++ "/param/".toList ++ (Nat.toDigits 10 idx)) }) ∧
      (baseDocumentationSymbol ws documentationSymbol ty isOverloaded = none →
        p.documentation = { kind := .Markdown, value := [] }) := by
  rw [addSignature_parameters] at hp
  obtain ⟨t, d, ht, hd, _⟩ := spanSearch_getElem? _ _ _ _ _ hp
  rw [List.getElem?_map] at ht
  cases hk : (renderedParameters ftv candidate)[k]? with
  | none => rw [hk] at ht; cases ht
  | some arg =>
    rw [hk] at ht
    simp only [Option.map_some', Option.some.injEq, describeParameter, Prod.mk.injEq] at ht
    obtain ⟨_, hdoc⟩ := ht
    obtain ⟨hidx, hty⟩ := renderedParameters_getElem? ftv candidate k arg.1 arg.2 hk
    refine ⟨arg.1, arg.2, hidx, hty, ?_, ?_⟩
    · intro symbol hsymbol
      rw [hd, ← hdoc, hsymbol]
      rfl
    · intro hnone
      rw [hd, ← hdoc, hnone]
      rfl

theorem parameter_documentation_witness :
    ∃ idx argTy,
      idx = 0 + (if methodCall.self && leadingSelf methodType then 1 else 0) ∧
      methodType.argTypes[idx]? = some argTy ∧
      (∀ symbol, baseDocumentationSymbol exampleWorkspace (some "pkg/f".toList) 12 false
          = some symbol →
        (ParameterInformation.mk (.offsets [7, 16])
            { kind := .Markdown, value := "pkg/f/param/1".toList }).documentation =
          { kind := .Markdown,
            value := exampleWorkspace.printDocumentation
              (symbol ++ "/param/".toList ++ (Nat.toDigits 10 idx)) }) ∧
      (baseDocumentationSymbol exampleWorkspace (some "pkg/f".toList) 12 false = none →
        (ParameterInformation.mk (.offsets [7, 16])
            { kind := .Markdown, value := "pkg/f/param/1".toList }).documentation =
          { kind := .Markdown, value := [] }) :=
  parameter_documentation exampleWorkspace exampleModule 0 { hideTableKind := true } methodCall
    (some "pkg/f".toList) 1 12 methodType false 0
    { label := .offsets [7, 16],
      documentation := { kind := .Markdown, value := "pkg/f/param/1".toList } } rfl

/-! ## The span search step -/

/-- A text occurs at an offset exactly when it is a prefix of what the label
holds from that offset on. -/
theorem occursAt_iff (label text : Str) (j : Nat) :
    occursAt label text j = true ↔ j ≤ label.length ∧ text <+: label.drop j := by
  unfold occursAt substr
  simp only [Bool.and_eq_true, decide_eq_true_eq, beq_iff_eq]
  constructor
  · rintro ⟨hlen, htake⟩
    refine ⟨by omega, ?_⟩
    rw [← htake]
    exact List.take_prefix _ _
  · rintro ⟨hj, hpre⟩
    have hlen := hpre.length_le
    simp only [List.length_drop] at hlen
    exact ⟨by omega, (List.prefix_iff_eq_take.mp hpre).symm⟩

/-- The offset `find` returns is the leftmost occurrence from `pos` on. -/
theorem find_eq_some_iff (label text : Str) (pos position : Nat) :
    find label text pos = some position ↔
      pos ≤ position ∧ occursAt label text position = true ∧
        ∀ j, pos ≤ j → j < position → occursAt label text j = false := by
  constructor
  · intro h
    obtain ⟨h1, h2, h3, h4⟩ := find_some h
    refine ⟨h1, ?_, ?_⟩
    · rw [occursAt_iff]
      refine ⟨by omega, ?_⟩
      rw [List.prefix_iff_eq_take]
      exact h3.symm
    · intro j hj1 hj2
      rw [Bool.eq_false_iff]
      intro hocc
      exact h4 j hj1 hj2 ((occursAt_iff _ _ _).mp hocc).2
  · rintro ⟨h1, h2, h3⟩
    obtain ⟨hle, hpre⟩ := (occursAt_iff _ _ _).mp h2
    cases hf : find label text pos with
    | none => exact absurd hpre (find_none hf position h1 hle)
    | some found =>
      obtain ⟨f1, f2, f3, f4⟩ := find_some hf
      have hfound : occursAt label text found = true := by
        rw [occursAt_iff]
        refine ⟨by omega, ?_⟩
        rw [List.prefix_iff_eq_take]
        exact f3.symm
      rcases Nat.lt_trichotomy found position with hlt | heq | hgt
      · rw [h3 found f1 hlt] at hfound; cases hfound
      · rw [heq]
      · exact absurd hpre (f4 position h1 hgt)

/-- A search fails exactly when the text occurs nowhere from `pos` on. -/
theorem find_eq_none_iff (label text : Str) (pos : Nat) :
    find label text pos = none ↔ ∀ j, pos ≤ j → occursAt label text j = false := by
  constructor
  · intro h j hj
    rw [Bool.eq_false_iff]
    intro hocc
    obtain ⟨hle, hpre⟩ := (occursAt_iff _ _ _).mp hocc
    exact find_none h j hj hle hpre
  · intro h
    cases hf : find label text pos with
    | none => rfl
    | some found =>
      obtain ⟨f1, f2, _⟩ := (find_eq_some_iff _ _ _ _).mp hf
      rw [h found f1] at f2; cases f2

/-- The offset the spec's leftmost occurrence names is the one with the
defining property: at or after the cursor, the text occurs there, and it
occurs at no earlier offset from the cursor on. -/
theorem leftmostOccurrence_eq_some_iff (label text : Str) (cursor position : Nat) :
    leftmostOccurrence label text cursor = some position ↔
      cursor ≤ position ∧ occursAt label text position = true ∧
        ∀ j, cursor ≤ j → j < position → occursAt label text j = false := by
  unfold leftmostOccurrence
  rw [List.find?_range_eq_some]
  simp only [Bool.and_eq_true, decide_eq_true_eq, List.mem_range, Bool.not_and,
    Bool.or_eq_true, Bool.not_eq_true', decide_eq_false_iff_not, Bool.not_eq_true]
  constructor
  · rintro ⟨⟨h1, h2⟩, _, h3⟩
    refine ⟨h1, h2, ?_⟩
    intro j hj1 hj2
    rcases h3 j hj2 with h | h
    · omega
    · simpa using h
  · rintro ⟨h1, h2, h3⟩
    have hle := ((occursAt_iff _ _ _).mp h2).1
    refine ⟨⟨h1, h2⟩, by omega, ?_⟩
    intro j hj
    by_cases hc : cursor ≤ j
    · right; simpa using h3 j hc hj
    · left; omega

theorem leftmostOccurrence_eq_none_iff (label text : Str) (cursor : Nat) :
    leftmostOccurrence label text cursor = none ↔
      ∀ j, cursor ≤ j → occursAt label text j = false := by
  unfold leftmostOccurrence
  rw [List.find?_range_eq_none]
  simp only [Bool.not_and, Bool.or_eq_true, Bool.not_eq_true', decide_eq_false_iff_not]
  constructor
  · intro h j hj
    by_cases hlt : j < label.length + 1
    · rcases h j hlt with h | h
      · omega
      · exact h
    · rw [Bool.eq_false_iff]
      intro hocc
      have := ((occursAt_iff _ _ _).mp hocc).1
      omega
  · intro h j _
    by_cases hc : cursor ≤ j
    · right; exact h j hc
    · left; omega

/-- The call `label.find(text, cursor)` returns the leftmost occurrence. -/
theorem find_eq_leftmostOccurrence (label text : Str) (cursor : Nat) :
    find label text cursor = leftmostOccurrence label text cursor := by
  cases hf : find label text cursor with
  | none =>
    exact ((leftmostOccurrence_eq_none_iff _ _ _).mpr ((find_eq_none_iff _ _ _).mp hf)).symm
  | some position =>
    exact ((leftmostOccurrence_eq_some_iff _ _ _ _).mpr
      ((find_eq_some_iff _ _ _ _).mp hf)).symm

/-- One text of the span search: its descriptor is recorded first, and the
search goes on from the cursor after it. -/
theorem spanSearch_cons (label text : Str) (documentation : MarkupContent)
    (rest : List (Str × MarkupContent)) (cursor : Nat) :
    spanSearch label ((text, documentation) :: rest) cursor =
      { label := spanDescriptor label text cursor, documentation := documentation } ::
        spanSearch label rest (cursorAfter label text cursor) := by
  rw [spanSearch, spanDescriptor, cursorAfter, ← find_eq_leftmostOccurrence]
  cases find label text cursor <;> rfl

/-- The descriptor at place `k` of a span search is the one of the text at
place `k`, searched from the running cursor after the texts before it. -/
theorem spanSearch_getElem?_eq (label : Str) :
    ∀ (texts : List (Str × MarkupContent)) (cursor k : Nat) (text : Str)
      (documentation : MarkupContent), texts[k]? = some (text, documentation) →
      (spanSearch label texts cursor)[k]? =
        some
          { label := spanDescriptor label text
              (runningCursor label ((texts.take k).map Prod.fst) cursor),
            documentation := documentation } := by
  intro texts
  induction texts with
  | nil => intro cursor k text documentation h; simp at h
  | cons head rest ih =>
    intro cursor k text documentation h
    obtain ⟨headText, headDocumentation⟩ := head
    rw [spanSearch_cons]
    cases k with
    | zero =>
      simp only [List.getElem?_cons_zero, Option.some.injEq, Prod.mk.injEq] at h
      obtain ⟨h1, h2⟩ := h
      subst h1 h2
      simp [runningCursor]
    | succ k =>
      simp only [List.getElem?_cons_succ] at h
      rw [List.getElem?_cons_succ, ih _ k text documentation h]
      simp [runningCursor]

/-- C15. The span search of the loop, parameter by parameter. Each rendered
parameter, at its place `k` of a built signature, gets the descriptor of its
text at the running cursor, which is the cursor after the searches for the
texts of the parameters rendered before it, started at 0: the span from the
leftmost occurrence of the text in the label at or after the cursor to the
end of that occurrence, after which the cursor is at that end; or, if the text
does not occur at or after the cursor, the text itself, after which the cursor
is unchanged. The same holds for one turn of the loop: what the loop returns
is what was recorded before, then that descriptor, then what the rest of the
loop records from the cursor after it; and the loop returns what was recorded
when nothing is left. The leftmost occurrence is the offset at or after the
cursor where the text occurs and before which, from the cursor on, it does
not. -/
theorem span_search_step (ws : WorkspaceFolder) (module : Module) (scope : ScopePtr)
    (opts : ToStringNamedFunctionOpts) (candidate : AstExprCall)
    (documentationSymbol : Option Str) (activeParameter : Nat)
    (ty : TypeId) (ftv : FunctionTypeVar) (isOverloaded : Bool) :
    (∀ (k idx : Nat) (argTy : TypeId),
      (renderedParameters ftv candidate)[k]? = some (idx, argTy) →
      (addSignature ws module scope opts candidate documentationSymbol activeParameter
          ty ftv isOverloaded).parameters[k]? =
        some
          { label :=
              spanDescriptor
                (addSignature ws module scope opts candidate documentationSymbol
                  activeParameter ty ftv isOverloaded).label
                (labelString ws ftv idx argTy)
                (runningCursor
                  (addSignature ws module scope opts candidate documentationSymbol
                    activeParameter ty ftv isOverloaded).label
                  (((renderedParameters ftv candidate).take k).map
                    (fun arg => labelString ws ftv arg.1 arg.2)) 0),
            documentation :=
              parameterDocumentation ws
                (baseDocumentationSymbol ws documentationSymbol ty isOverloaded) idx }) ∧
    (∀ (label : Str) (baseSymbol : Option Str) (argTy : TypeId) (it : List TypeId)
      (idx cursor : Nat) (parameters : List ParameterInformation),
      omitSelf ftv candidate idx = false →
      parametersLoop ws ftv candidate label baseSymbol (argTy :: it) idx cursor parameters =
        parameters ++
          { label := spanDescriptor label (labelString ws ftv idx argTy) cursor,
            documentation := parameterDocumentation ws baseSymbol idx } ::
          parametersLoop ws ftv candidate label baseSymbol it (idx + 1)
            (cursorAfter label (labelString ws ftv idx argTy) cursor) []) ∧
    (∀ (label : Str) (baseSymbol : Option Str) (idx cursor : Nat)
      (parameters : List ParameterInformation),
      parametersLoop ws ftv candidate label baseSymbol [] idx cursor parameters = parameters) ∧
    (∀ (label text : Str) (cursor : Nat),
      (∀ position, leftmostOccurrence label text cursor = some position ↔
        cursor ≤ position ∧ occursAt label text position = true ∧
          ∀ j, cursor ≤ j → j < position → occursAt label text j = false) ∧
      (leftmostOccurrence label text cursor = none ↔
        ∀ j, cursor ≤ j → occursAt label text j = false) ∧
      (∀ position, leftmostOccurrence label text cursor = some position →
        spanDescriptor label text cursor = .offsets [position, position + text.length] ∧
          cursorAfter label text cursor = position + text.length) ∧
      (leftmostOccurrence label text cursor = none →
        spanDescriptor label text cursor = .text text ∧
          cursorAfter label text cursor = cursor)) := by
  refine ⟨?_, ?_, ?_, ?_⟩
  · intro k idx argTy hk
    rw [addSignature_parameters]
    have htexts : ((renderedParameters ftv candidate).map
        (describeParameter ws ftv
          (baseDocumentationSymbol ws documentationSymbol ty isOverloaded)))[k]? =
        some (labelString ws ftv idx argTy,
          parameterDocumentation ws
            (baseDocumentationSymbol ws documentationSymbol ty isOverloaded) idx) := by
      rw [List.getElem?_map, hk]
      rfl
    rw [spanSearch_getElem?_eq _ _ _ _ _ _ htexts]
    simp only [← List.map_take, List.map_map]
    rfl
  · intro label baseSymbol argTy it idx cursor parameters hrendered
    have hr : renderedFrom ftv candidate (argTy :: it) idx
        = (idx, argTy) :: renderedFrom ftv candidate it (idx + 1) := by
      simp [renderedFrom, List.enumFrom, hrendered]
    rw [parametersLoop_eq, parametersLoop_eq, hr, List.map_cons]
    simp only [describeParameter, spanSearch_cons, List.nil_append]
  · intro label baseSymbol idx cursor parameters
    rw [parametersLoop]
  · intro label text cursor
    refine ⟨leftmostOccurrence_eq_some_iff label text cursor,
      leftmostOccurrence_eq_none_iff label text cursor, ?_, ?_⟩
    · intro position h
      simp [spanDescriptor, cursorAfter, h]
    · intro h
      simp [spanDescriptor, cursorAfter, h]

theorem span_search_step_witness :
    (addSignature exampleWorkspace exampleModule 0 { hideTableKind := true }
        overloadedCall none 1 13 addType true).parameters[1]? =
      some
        { label := .offsets [12, 18],
          documentation := { kind := .Markdown, value := [] } } :=
  (span_search_step exampleWorkspace exampleModule 0 { hideTableKind := true }
    overloadedCall none 1 13 addType true).1 1 1 1 rfl

/-! ## Absent and missing analysis results -/

/-- With signature help enabled, a managed document and a module at hand,
each of the conditions "no source module", "empty ancestry", "no call among
the two innermost nodes" and "no recorded type for the callee" gives an
absent response. A missing source module does so whatever the module is. -/
theorem absence_conditions_with_module (ws : WorkspaceFolder) (params : SignatureHelpParams)
    (textDocument : TextDocument)
    (henabled : ws.getConfiguration.signatureHelp.enabled = true)
    (hdoc : ws.getTextDocument (ws.getModuleName params.textDocument.uri)
      = some textDocument) :
    ((ws.check (ws.getModuleName params.textDocument.uri)
        { retainFullTypeGraphs := true, forAutocomplete := true }).getSourceModule
        (ws.getModuleName params.textDocument.uri) = none →
      signatureHelp ws params = .ok none) ∧
    (∀ sourceModule module,
      (ws.check (ws.getModuleName params.textDocument.uri)
        { retainFullTypeGraphs := true, forAutocomplete := true }).getSourceModule
        (ws.getModuleName params.textDocument.uri) = some sourceModule →
      (ws.check (ws.getModuleName params.textDocument.uri)
        { retainFullTypeGraphs := true, forAutocomplete := true }).getModule
        (ws.getModuleName params.textDocument.uri) = some module →
      (ws.findAstAncestryOfPosition sourceModule
          (ws.convertPosition textDocument params.position) = [] →
        signatureHelp ws params = .ok none) ∧
      (selectInnermostTwo
          (ws.findAstAncestryOfPosition sourceModule
            (ws.convertPosition textDocument params.position)).reverse = none →
        signatureHelp ws params = .ok none) ∧
      (∀ candidate,
        locateCandidate
          (ws.findAstAncestryOfPosition sourceModule
            (ws.convertPosition textDocument params.position)) = some candidate →
        module.astTypes candidate.func = none →
        signatureHelp ws params = .ok none)) := by
  refine ⟨?_, ?_⟩
  · intro hsource
    unfold signatureHelp
    simp [henabled, hdoc, hsource]
  · intro sourceModule module hsource hmodule
    refine ⟨?_, ?_, ?_⟩
    · intro hempty
      apply signatureHelp_no_candidate ws params textDocument sourceModule module henabled hdoc
        hsource hmodule
      rw [hempty]; rfl
    · intro hnone
      apply signatureHelp_no_candidate ws params textDocument sourceModule module henabled hdoc
        hsource hmodule
      rw [locateCandidate_eq_select]; exact hnone
    · intro candidate hcandidate htype
      unfold signatureHelp
      simp [henabled, hdoc, hsource, hmodule, hcandidate, htype]

/-- With signature help enabled, a managed document and a source module, a
null module is dereferenced (line 28) before anything else is decided. -/
theorem signatureHelp_null_module (ws : WorkspaceFolder) (params : SignatureHelpParams)
    (textDocument : TextDocument) (sourceModule : SourceModule)
    (henabled : ws.getConfiguration.signatureHelp.enabled = true)
    (hdoc : ws.getTextDocument (ws.getModuleName params.textDocument.uri) = some textDocument)
    (hsource :
      (ws.check (ws.getModuleName params.textDocument.uri)
        { retainFullTypeGraphs := true, forAutocomplete := true }).getSourceModule
        (ws.getModuleName params.textDocument.uri) = some sourceModule)
    (hmodule :
      (ws.check (ws.getModuleName params.textDocument.uri)
        { retainFullTypeGraphs := true, forAutocomplete := true }).getModule
        (ws.getModuleName params.textDocument.uri) = none) :
    signatureHelp ws params = .error .nullDereference := by
  unfold signatureHelp
  simp [henabled, hdoc, hsource, hmodule]

/-- C16 at its failing inputs: for a managed document with signature help
enabled and a source module but no module, a position with an empty ancestry
and a position with no call among its two innermost nodes do not get an
absent response; the missing module is dereferenced first. -/
theorem absence_conditions_null_module :
    nullModuleWorkspace.getConfiguration.signatureHelp.enabled = true ∧
    nullModuleWorkspace.getTextDocument
        (nullModuleWorkspace.getModuleName (paramsAt 6).textDocument.uri) = some { addr := 0 } ∧
    nullModuleWorkspace.findAstAncestryOfPosition { addr := 0 } (paramsAt 6).position = [] ∧
    signatureHelp nullModuleWorkspace (paramsAt 6) = .error .nullDereference ∧
    locateCandidate
        (nullModuleWorkspace.findAstAncestryOfPosition { addr := 0 } (paramsAt 9).position)
      = none ∧
    signatureHelp nullModuleWorkspace (paramsAt 9) = .error .nullDereference :=
  ⟨rfl, rfl, rfl,
    signatureHelp_null_module nullModuleWorkspace (paramsAt 6) { addr := 0 } { addr := 0 }
      rfl rfl rfl rfl,
    rfl,
    signatureHelp_null_module nullModuleWorkspace (paramsAt 9) { addr := 0 } { addr := 0 }
      rfl rfl rfl rfl⟩

/-- C17 at its failing input: for a request inside the call `foo(1, )` of a
managed document whose check left a source module but no module, the result
is not an absent response: the missing module is dereferenced. -/
theorem missing_module_dereferenced :
    (nullModuleWorkspace.check (nullModuleWorkspace.getModuleName (paramsAt 1).textDocument.uri)
        { retainFullTypeGraphs := true, forAutocomplete := true }).getModule
        (nullModuleWorkspace.getModuleName (paramsAt 1).textDocument.uri) = none ∧
    ((nullModuleWorkspace.check (nullModuleWorkspace.getModuleName (paramsAt 1).textDocument.uri)
        { retainFullTypeGraphs := true, forAutocomplete := true }).getSourceModule
        (nullModuleWorkspace.getModuleName (paramsAt 1).textDocument.uri)).isSome = true ∧
    signatureHelp nullModuleWorkspace (paramsAt 1) = .error .nullDereference ∧
    signatureHelp nullModuleWorkspace (paramsAt 1) ≠ .ok none :=
  ⟨rfl, rfl,
    signatureHelp_null_module nullModuleWorkspace (paramsAt 1) { addr := 0 } { addr := 0 }
      rfl rfl rfl rfl,
    by
      rw [signatureHelp_null_module nullModuleWorkspace (paramsAt 1) { addr := 0 } { addr := 0 }
        rfl rfl rfl rfl]
      intro h; cases h⟩

/-! ## Repeating the overload fix-up -/

/-- A prefix of `s` followed by the separator, before which the separator
does not start, is the cut of `s`. -/
theorem cutAtFirst_unique (sep s p rest : Str) (hs : s = p ++ sep ++ rest)
    (hmin : ∀ q r, s = q ++ sep ++ r → p.length ≤ q.length) : cutAtFirst sep s = p := by
  rcases cutAtFirst_spec sep s with ⟨hno, _⟩ | ⟨rest2, hcut, hcutmin⟩
  · exact absurd ⟨p, rest, hs.symm⟩ hno
  · have h1 := hmin _ _ hcut
    have h2 := hcutmin _ _ hs
    have hp1 : cutAtFirst sep s <+: s := ⟨sep ++ rest2, by rw [← List.append_assoc]; exact hcut.symm⟩
    have hp2 : p <+: s := ⟨sep ++ rest, by rw [← List.append_assoc]; exact hs.symm⟩
    exact (List.prefix_of_prefix_length_le hp1 hp2 h2).eq_of_length (by omega)

/-- The cut of a text is a prefix of it. -/
theorem cutAtFirst_prefix (sep s : Str) : cutAtFirst sep s <+: s := by
  rcases cutAtFirst_spec sep s with ⟨_, h⟩ | ⟨rest, h, _⟩
  · rw [h]
  · exact ⟨sep ++ rest, by rw [← List.append_assoc]; exact h.symm⟩

/-- A separator starting inside `u ++ sep`, before `sep`, with `u` shorter
than the separator "/overload/": then `u` is "/overload". -/
theorem overlap_overload (u : Str) (hu : u ≠ []) (hlen : u.length < 10)
    (h : "/overload/".toList <+: u ++ "/overload/".toList) : u = "/overload".toList := by
  have hpre : u <+: "/overload/".toList :=
    List.prefix_of_prefix_length_le (List.prefix_append u _) h (by simp; omega)
  have hutake : u = "/overload/".toList.take u.length := List.prefix_iff_eq_take.mp hpre
  have hpos : 0 < u.length := List.length_pos.mpr hu
  generalize u.length = d at hutake hlen hpos
  subst hutake
  have hb : "/overload/".toList.isPrefixOf
      ("/overload/".toList.take d ++ "/overload/".toList) = true :=
    List.isPrefixOf_iff_prefix.mpr h
  clear h hpre hu
  interval_cases d <;> first | rfl | (exfalso; revert hb; decide)

/-- The result of the fix-up, cut again, is the cut base exactly when the
base contains "/overload/" or does not end in "/overload". -/
theorem cutAtFirst_fixup_iff (base t : Str) :
    cutAtFirst "/overload/".toList
        (cutAtFirst "/overload/".toList base ++ "/overload/".toList ++ t) =
      cutAtFirst "/overload/".toList base ↔
    ("/overload/".toList <:+: base ∨ ¬ "/overload".toList <:+ base) := by
  constructor
  · intro hidem
    by_contra hcond
    rw [not_or, not_not] at hcond
    obtain ⟨hno, q, hq⟩ := hcond
    have hc : cutAtFirst "/overload/".toList base = base := by
      rcases cutAtFirst_spec "/overload/".toList base with ⟨_, h⟩ | ⟨rest, h, _⟩
      · exact h
      · exact absurd ⟨_, _, h.symm⟩ hno
    rw [hc] at hidem
    have hdecomp : base ++ "/overload/".toList ++ t
        = q ++ "/overload/".toList ++ ("overload/".toList ++ t) := by
      rw [← hq]
      simp only [List.append_assoc]
      rfl
    rcases cutAtFirst_spec "/overload/".toList (base ++ "/overload/".toList ++ t) with
      ⟨hno2, _⟩ | ⟨rest, _, hmin⟩
    · exact hno2 ⟨q, _, hdecomp.symm⟩
    · have h1 := hmin _ _ hdecomp
      rw [hidem, ← hq] at h1
      simp at h1
  · intro hcond
    apply cutAtFirst_unique _ _ _ t rfl
    intro q r hqr
    by_contra hlt
    rw [not_le] at hlt
    -- the cut base is `q ++ u` with `u` not empty, and the separator starts at `u`
    have hqpre : q <+: cutAtFirst "/overload/".toList base := by
      have h1 : q <+: q ++ "/overload/".toList ++ r := by
        rw [List.append_assoc]; exact List.prefix_append _ _
      have h2 : cutAtFirst "/overload/".toList base <+: q ++ "/overload/".toList ++ r := by
        rw [← hqr, List.append_assoc]; exact List.prefix_append _ _
      exact List.prefix_of_prefix_length_le h1 h2 (by omega)
    obtain ⟨u, hu⟩ := hqpre
    have hune : u ≠ [] := by
      intro h
      rw [h, List.append_nil] at hu
      rw [hu] at hlt
      omega
    have hsepu : "/overload/".toList <+: u ++ "/overload/".toList := by
      have h1 : u ++ "/overload/".toList ++ t = "/overload/".toList ++ r := by
        rw [← hu] at hqr
        simp only [List.append_assoc] at hqr
        simpa [List.append_assoc] using List.append_cancel_left hqr
      have h2 : "/overload/".toList <+: u ++ "/overload/".toList ++ t := by
        rw [h1]; exact List.prefix_append _ _
      have h3 : u ++ "/overload/".toList <+: u ++ "/overload/".toList ++ t :=
        List.prefix_append _ _
      exact List.prefix_of_prefix_length_le h2 h3 (by simp)
    rcases cutAtFirst_spec "/overload/".toList base with ⟨hno, hc⟩ | ⟨rest, hbase, hmin⟩
    · -- the base holds no separator: it ends in `u`, which must be "/overload"
      have hsuffix : ¬ "/overload".toList <:+ base := by
        rcases hcond with h | h
        · exact absurd h hno
        · exact h
      by_cases hulen : u.length < 10
      · apply hsuffix
        rw [← hc, ← hu, overlap_overload u hune hulen hsepu]
        exact List.suffix_append _ _
      · apply hno
        have : "/overload/".toList <+: u :=
          List.prefix_of_prefix_length_le hsepu (List.prefix_append u _) (by simp; omega)
        obtain ⟨v, hv⟩ := this
        exact ⟨q, v, by rw [← hc, ← hu, ← hv, List.append_assoc]⟩
    · -- the base holds a separator after its cut: one would start earlier, at `u`
      obtain ⟨v, hv⟩ := hsepu
      have : base = q ++ "/overload/".toList ++ (v ++ rest) := by
        rw [hbase, ← hu]
        simp only [List.append_assoc]
        rw [← List.append_assoc "/overload/".toList v rest, hv]
        simp only [List.append_assoc]
      have := hmin _ _ this
      omega

/-- C19, as stated, fails: for the base symbol "pkg/overload" and the type
string "number", which does not contain "/overload/", the fix-up gives
"pkg/overload/overload/number", and applied to that it gives
"pkg/overload/number". -/
theorem overload_fixup_counterexample :
    ¬ "/overload/".toList <:+: exampleWorkspace.toString 1 ∧
    baseDocumentationSymbol exampleWorkspace (some "pkg/overload".toList) 1 true =
      some "pkg/overload/overload/number".toList ∧
    baseDocumentationSymbol exampleWorkspace
        (baseDocumentationSymbol exampleWorkspace (some "pkg/overload".toList) 1 true) 1 true =
      some "pkg/overload/number".toList ∧
    baseDocumentationSymbol exampleWorkspace
        (baseDocumentationSymbol exampleWorkspace (some "pkg/overload".toList) 1 true) 1 true ≠
      baseDocumentationSymbol exampleWorkspace (some "pkg/overload".toList) 1 true := by
  refine ⟨?_, by decide, by decide, by decide⟩
  intro h
  exact absurd h.length_le (by decide)

/-- C19, amended. Applying the overload fix-up (cut the symbol at its first
"/overload/", append "/overload/" and the printed type) to its own result,
with the same type, returns that result exactly when the base symbol contains
"/overload/" or does not end in "/overload"; the printed type plays no role. -/
theorem overload_fixup_idempotent_iff (ws : WorkspaceFolder) (base : Str) (ty : TypeId) :
    baseDocumentationSymbol ws (baseDocumentationSymbol ws (some base) ty true) ty true =
        baseDocumentationSymbol ws (some base) ty true ↔
      ("/overload/".toList <:+: base ∨ ¬ "/overload".toList <:+ base) := by
  rw [baseDocumentationSymbol_overloaded, baseDocumentationSymbol_overloaded,
    ← cutAtFirst_fixup_iff base (ws.toString ty)]
  simp only [Option.some.injEq, List.append_left_inj]

/-! ## The test helper `sourceWithMarker` -/

/-- On sizes from 1 up to `2 ^ 64`, `marker - 1` does not wrap around. -/
theorem sizeSubOne_pos (n : Nat) (h1 : 0 < n) (h2 : n ≤ 2 ^ 64) : sizeSubOne n = n - 1 := by
  unfold sizeSubOne
  omega

/-- The index `marker - 1` of marker 0 is the largest `size_t`. -/
theorem sizeSubOne_zero : sizeSubOne 0 = 2 ^ 64 - 1 := by
  decide

theorem get?_append_add (front rest : Str) (k : Nat) :
    (front ++ rest).get? (front.length + k) = rest.get? k := by
  rw [List.get?_eq_getElem?, List.get?_eq_getElem?,
    List.getElem?_append_right (Nat.le_add_right _ _)]
  congr 1
  omega

/-- The search for '|' finds the first marker. -/
theorem findAux_marker (before after : Str) (hbefore : '|' ∉ before) (i : Nat) :
    findAux ['|'] (before ++ '|' :: after) i = some (i + before.length) := by
  induction before generalizing i with
  | nil => simp [findAux, List.isPrefixOf]
  | cons ch rest ih =>
    have hch : ch ≠ '|' := fun h => hbefore (by simp [h])
    have hrest : '|' ∉ rest := fun h => hbefore (by simp [h])
    have hstep : findAux ['|'] (ch :: rest ++ '|' :: after) i
        = findAux ['|'] (rest ++ '|' :: after) (i + 1) := by
      have hp : List.isPrefixOf ['|'] (ch :: (rest ++ '|' :: after)) = false := by
        simp [List.isPrefixOf, hch.symm]
      rw [List.cons_append, findAux, hp]
      rfl
    rw [hstep, ih hrest]
    simp only [List.length_cons]
    congr 1
    omega

theorem find_marker (before after : Str) (hbefore : '|' ∉ before) :
    find (before ++ '|' :: after) ['|'] 0 = some before.length := by
  unfold find
  simp only [Nat.not_lt_zero, gt_iff_lt, if_false, List.drop_zero]
  rw [findAux_marker before after hbefore 0]
  simp

theorem find_no_marker (source : Str) (h : '|' ∉ source) : find source ['|'] 0 = none := by
  cases hf : find source ['|'] 0 with
  | none => rfl
  | some marker =>
    obtain ⟨_, h2, h3, _⟩ := find_some hf
    exfalso
    apply h
    have hmem : '|' ∈ substr source marker 1 := by
      rw [show ['|'].length = 1 from rfl] at h3
      rw [h3]; simp
    unfold substr at hmem
    exact List.mem_of_mem_drop (List.mem_of_mem_take hmem)

/-- A source with a marker splits at its first marker. -/
theorem split_at_marker (source : Str) (h : '|' ∈ source) :
    ∃ before after, source = before ++ '|' :: after ∧ '|' ∉ before := by
  induction source with
  | nil => simp at h
  | cons ch rest ih =>
    by_cases hch : ch = '|'
    · exact ⟨[], rest, by simp [hch], by simp⟩
    · have hrest : '|' ∈ rest := by
        rcases List.mem_cons.mp h with h | h
        · exact absurd h.symm hch
        · exact h
      obtain ⟨before, after, hsplit, hbefore⟩ := ih hrest
      refine ⟨ch :: before, after, by simp [hsplit], ?_⟩
      intro hmem
      rcases List.mem_cons.mp hmem with h | h
      · exact hch h.symm
      · exact hbefore h

/-- The specification on a source split at its first marker. -/
theorem markerPosition_split (before after : Str) (hbefore : '|' ∉ before) :
    markerPosition (before ++ '|' :: after) =
      some (before ++ after,
        { line := lineBreaks before, column := charactersAfterLastBreak before }) := by
  have hall : ∀ ch ∈ before, (ch != '|') = true := by
    intro ch hch
    simp only [bne_iff_ne, ne_eq]
    intro h
    exact hbefore (h ▸ hch)
  have htake : (before ++ '|' :: after).takeWhile (fun ch => ch != '|') = before := by
    rw [List.takeWhile_append_of_pos hall]
    simp
  have hdrop : (before ++ '|' :: after).dropWhile (fun ch => ch != '|') = '|' :: after := by
    rw [List.dropWhile_append_of_pos hall]
    simp
  unfold markerPosition
  rw [if_pos (by simp), htake, hdrop]
  rfl

/-- The helper on a source split at its first marker: the loop runs over the
source without the marker. -/
theorem sourceWithMarker_split (before after : Str) (hbefore : '|' ∉ before) :
    sourceWithMarker (before ++ '|' :: after) =
      some (before ++ after,
        { line := (markerLoop (before ++ after) before.length (before ++ after).length
            0 0 0).1,
          column := (markerLoop (before ++ after) before.length (before ++ after).length
            0 0 0).2 }) := by
  unfold sourceWithMarker
  rw [find_marker before after hbefore]
  have hstrip : (before ++ '|' :: after).take before.length ++
      (before ++ '|' :: after).drop (before.length + 1) = before ++ after := by
    rw [List.take_left, ← List.drop_drop, List.drop_left]
    rfl
  simp only [hstrip]

/-- One turn of the loop at a character of the text before the marker, when
the turn does not step over a second character: the loop is left if that was
the last character before the marker, and goes on behind it otherwise. -/
theorem markerLoop_step (front rest post : Str) (ch : Char) (turns line column : Nat)
    (hsize : front.length + 1 + rest.length ≤ 2 ^ 64)
    (hpair : ¬ (ch = '\r' ∧ (rest ++ post).head? = some '\n')) :
    markerLoop (front ++ (ch :: rest ++ post)) (front.length + 1 + rest.length) (turns + 1)
        front.length line column =
      if rest = [] then
        (if ch = '\r' ∨ ch = '\n' then (line + 1, 0) else (line, column + 1))
      else
        markerLoop (front ++ (ch :: rest ++ post)) (front.length + 1 + rest.length) turns
          (front.length + 1)
          (if ch = '\r' ∨ ch = '\n' then line + 1 else line)
          (if ch = '\r' ∨ ch = '\n' then 0 else column + 1) := by
  have hget : (front ++ (ch :: rest ++ post)).get? front.length = some ch := by
    have := get?_append_add front (ch :: rest ++ post) 0
    simpa using this
  have hnext : (front ++ (ch :: rest ++ post)).get? (front.length + 1)
      = (rest ++ post).head? := by
    rw [get?_append_add front (ch :: rest ++ post) 1]
    show (ch :: (rest ++ post)).get? 1 = (rest ++ post).head?
    generalize rest ++ post = tail
    cases tail <;> rfl
  have hm : sizeSubOne (front.length + 1 + rest.length) = front.length + rest.length := by
    rw [sizeSubOne_pos _ (by omega) hsize]; omega
  rw [markerLoop]
  simp only [hget, hnext, hm]
  have hstay : ¬ (ch = '\r' ∧ (rest ++ post).head? = some '\n') := hpair
  by_cases hbreak : ch = '\r' ∨ ch = '\n'
  · simp only [hbreak, if_true, if_neg hstay]
    cases rest with
    | nil => simp
    | cons c cs => simp
  · simp only [hbreak, if_false]
    cases rest with
    | nil => simp
    | cons c cs => simp

/-- One turn of the loop at a "\r\n" before the marker: it steps over the
line feed, and the loop is left if that was the last character before the
marker, and goes on behind it otherwise. -/
theorem markerLoop_step_pair (front rest post : Str) (turns line column : Nat)
    (hsize : front.length + 2 + rest.length ≤ 2 ^ 64) :
    markerLoop (front ++ ('\r' :: '\n' :: rest ++ post)) (front.length + 2 + rest.length)
        (turns + 1) front.length line column =
      if rest = [] then (line + 1, 0)
      else
        markerLoop (front ++ ('\r' :: '\n' :: rest ++ post)) (front.length + 2 + rest.length)
          turns (front.length + 2) (line + 1) 0 := by
  have hget : (front ++ ('\r' :: '\n' :: rest ++ post)).get? front.length = some '\r' := by
    have := get?_append_add front ('\r' :: '\n' :: rest ++ post) 0
    simpa using this
  have hnext : (front ++ ('\r' :: '\n' :: rest ++ post)).get? (front.length + 1)
      = some '\n' := by
    rw [get?_append_add front ('\r' :: '\n' :: rest ++ post) 1]
    rfl
  have hm : sizeSubOne (front.length + 2 + rest.length) = front.length + 1 + rest.length := by
    rw [sizeSubOne_pos _ (by omega) hsize]; omega
  rw [markerLoop]
  simp only [hget, hnext, hm, true_or, and_self, if_true]
  cases rest with
  | nil => simp
  | cons c cs => simp

theorem isLineBreak_iff (ch : Char) : isLineBreak ch = true ↔ (ch = '\r' ∨ ch = '\n') := by
  simp [isLineBreak]

/-- The loop over the text `todo` that is left before the marker counts its
line breaks and its columns, provided the marker does not stand between a
carriage return and a line feed. -/
theorem markerLoop_scan :
    ∀ (n : Nat) (todo front post : Str) (turns line column : Nat),
      todo.length = n → todo ≠ [] → front.length + todo.length ≤ 2 ^ 64 →
      todo.length ≤ turns →
      ¬ (todo.getLast? = some '\r' ∧ post.head? = some '\n') →
      markerLoop (front ++ (todo ++ post)) (front.length + todo.length) turns front.length
          line column =
        (line + lineBreaks todo, columnAfter todo column) := by
  intro n
  induction n using Nat.strong_induction_on with
  | _ n ih =>
    intro todo front post turns line column hn hne hsize hturns hsplit
    obtain ⟨ch, rest, rfl⟩ := List.exists_cons_of_ne_nil hne
    obtain ⟨t, rfl⟩ : ∃ t, turns = t + 1 := ⟨turns - 1, by simp at hturns; omega⟩
    simp only [List.length_cons] at hn hsize hturns
    have hmarker : front.length + (ch :: rest).length = front.length + 1 + rest.length := by
      simp only [List.length_cons]; omega
    by_cases hpair : ch = '\r' ∧ (rest ++ post).head? = some '\n'
    · obtain ⟨hch, hnext⟩ := hpair
      subst hch
      cases rest with
      | nil => exact absurd ⟨rfl, by simpa using hnext⟩ hsplit
      | cons c rest2 =>
        have hc : c = '\n' := by simpa using hnext
        subst hc
        simp only [List.length_cons] at hn hsize hturns
        have hmarker2 : front.length + ('\r' :: '\n' :: rest2).length
            = front.length + 2 + rest2.length := by
          simp only [List.length_cons]; omega
        rw [hmarker2]
        have hstep := markerLoop_step_pair front rest2 post t line column (by omega)
        simp only [List.cons_append] at hstep ⊢
        rw [hstep]
        by_cases hrest : rest2 = []
        · subst hrest
          simp [lineBreaks, columnAfter, isLineBreak]
        · rw [if_neg hrest]
          have hsrc : front ++ '\r' :: '\n' :: (rest2 ++ post)
              = (front ++ ['\r', '\n']) ++ (rest2 ++ post) := by simp
          have hlast : ('\r' :: '\n' :: rest2).getLast? = rest2.getLast? := by
            obtain ⟨c, cs, rfl⟩ := List.exists_cons_of_ne_nil hrest
            simp [List.getLast?_cons_cons]
          have hrec := ih rest2.length (by omega) rest2 (front ++ ['\r', '\n']) post t
            (line + 1) 0 rfl hrest (by simp; omega) (by omega) (by rw [← hlast]; exact hsplit)
          simp only [List.length_append, List.length_cons, List.length_nil] at hrec
          rw [hsrc, hrec]
          simp [lineBreaks, columnAfter, isLineBreak]
          omega
    · rw [hmarker]
      have hstep := markerLoop_step front rest post ch t line column (by omega) hpair
      simp only [List.cons_append] at hstep ⊢
      rw [hstep]
      by_cases hrest : rest = []
      · subst hrest
        rw [if_pos rfl]
        by_cases hbreak : ch = '\r' ∨ ch = '\n'
        · have hb := (isLineBreak_iff ch).mpr hbreak
          rcases hbreak with h | h <;> subst h <;> simp [lineBreaks, columnAfter, isLineBreak]
        · have hb : isLineBreak ch = false := by
            rw [Bool.eq_false_iff]; exact fun h => hbreak ((isLineBreak_iff ch).mp h)
          have h1 : ch ≠ '\r' := fun h => hbreak (Or.inl h)
          have h2 : ch ≠ '\n' := fun h => hbreak (Or.inr h)
          simp [lineBreaks, columnAfter, hb, h1, h2, hbreak]
      · rw [if_neg hrest]
        have hsrc : front ++ ch :: (rest ++ post) = (front ++ [ch]) ++ (rest ++ post) := by simp
        have hlast : (ch :: rest).getLast? = rest.getLast? := by
          obtain ⟨c, cs, rfl⟩ := List.exists_cons_of_ne_nil hrest
          simp [List.getLast?_cons_cons]
        have hhead : (rest ++ post).head? = rest.head? := by
          obtain ⟨c, cs, rfl⟩ := List.exists_cons_of_ne_nil hrest
          rfl
        have hrec := ih rest.length (by omega) rest (front ++ [ch]) post t
          (if ch = '\r' ∨ ch = '\n' then line + 1 else line)
          (if ch = '\r' ∨ ch = '\n' then 0 else column + 1)
          rfl hrest (by simp; omega) (by omega) (by rw [← hlast]; exact hsplit)
        simp only [List.length_append, List.length_cons, List.length_nil] at hrec
        rw [hsrc, hrec]
        rw [hhead] at hpair
        by_cases hbreak : ch = '\r' ∨ ch = '\n'
        · have hb := (isLineBreak_iff ch).mpr hbreak
          have hind : (ch = '\n' ∨ (ch = '\r' ∧ rest.head? ≠ some '\n')) := by
            rcases hbreak with h | h
            · exact Or.inr ⟨h, fun hn => hpair ⟨h, hn⟩⟩
            · exact Or.inl h
          simp only [hbreak, if_true, lineBreaks, if_pos hind, columnAfter, hb]
          congr 1
          omega
        · have hb : isLineBreak ch = false := by
            rw [Bool.eq_false_iff]; exact fun h => hbreak ((isLineBreak_iff ch).mp h)
          have h1 : ch ≠ '\r' := fun h => hbreak (Or.inl h)
          have h2 : ch ≠ '\n' := fun h => hbreak (Or.inr h)
          simp [lineBreaks, columnAfter, hb, h1, h2, hbreak]

/-- A text is taken whole by `takeWhile` exactly when all of it passes. -/
theorem length_takeWhile_eq_iff (p : Char → Bool) (text : Str) :
    (text.takeWhile p).length = text.length ↔ text.all p = true := by
  constructor
  · intro h
    have heq : text.takeWhile p = text :=
      (List.takeWhile_prefix p).eq_of_length h
    rw [List.all_eq_true]
    exact List.takeWhile_eq_self_iff.mp heq
  · intro h
    rw [List.all_eq_true] at h
    rw [List.takeWhile_eq_self_iff.mpr h]

/-- The column counted forward is the number of characters after the last
line break, or what was added to the starting column if there is no break. -/
theorem columnAfter_eq (text : Str) :
    ∀ column, columnAfter text column =
      if text.all (fun ch => !isLineBreak ch) then column + text.length
      else charactersAfterLastBreak text := by
  induction text with
  | nil => intro column; simp [columnAfter]
  | cons ch rest ih =>
    intro column
    rw [columnAfter, ih]
    have hlast : charactersAfterLastBreak (ch :: rest) =
        if rest.all (fun ch => !isLineBreak ch) then
          rest.length + (if isLineBreak ch then 0 else 1)
        else charactersAfterLastBreak rest := by
      unfold charactersAfterLastBreak
      rw [List.reverse_cons, List.takeWhile_append]
      by_cases hall : rest.all (fun ch => !isLineBreak ch) = true
      · have hlen : (rest.reverse.takeWhile (fun ch => !isLineBreak ch)).length
            = rest.reverse.length := by
          rw [length_takeWhile_eq_iff, List.all_reverse]; exact hall
        rw [if_pos hlen, if_pos hall]
        cases hb : isLineBreak ch <;> simp [List.takeWhile, hb]
      · have hlen : ¬ (rest.reverse.takeWhile (fun ch => !isLineBreak ch)).length
            = rest.reverse.length := by
          rw [length_takeWhile_eq_iff, List.all_reverse]; exact hall
        rw [if_neg hlen, if_neg hall]
    rw [hlast]
    cases hb : isLineBreak ch <;> cases hall : rest.all (fun ch => !isLineBreak ch) <;>
      first
        | (simp [List.all_cons, hb, hall]; done)
        | (simp [List.all_cons, hb, hall]; omega)

theorem columnAfter_zero (text : Str) :
    columnAfter text 0 = charactersAfterLastBreak text := by
  rw [columnAfter_eq]
  split
  · rename_i hall
    unfold charactersAfterLastBreak
    have : (text.reverse.takeWhile (fun ch => !isLineBreak ch)).length = text.reverse.length := by
      rw [length_takeWhile_eq_iff, List.all_reverse]; exact hall
    rw [this]; simp
  · rfl

/-- One turn of the loop, unfolded. -/
theorem markerLoop_succ (source : Str) (marker turns i line column : Nat) :
    markerLoop source marker (turns + 1) i line column =
      match source.get? i with
      | none => (line, column)
      | some ch =>
        if ch = '\r' ∨ ch = '\n' then
          if (if ch = '\r' ∧ source.get? (i + 1) = some '\n' then i + 1 else i)
              = sizeSubOne marker then (line + 1, 0)
          else markerLoop source marker turns
            ((if ch = '\r' ∧ source.get? (i + 1) = some '\n' then i + 1 else i) + 1) (line + 1) 0
        else
          if i = sizeSubOne marker then (line, column + 1)
          else markerLoop source marker turns (i + 1) line (column + 1) := by
  rw [markerLoop]

/-- More turns than characters are left do not change what the loop returns:
the bound `source.size()` on the turns is never what ends the loop. -/
theorem markerLoop_turns (source : Str) (marker : Nat) :
    ∀ (turns i line column : Nat), source.length ≤ i + turns →
      markerLoop source marker (turns + 1) i line column =
        markerLoop source marker turns i line column := by
  intro turns
  induction turns with
  | zero =>
    intro i line column h
    have hnone : source.get? i = none := by
      rw [List.get?_eq_none]; omega
    rw [markerLoop_succ, hnone]
    rfl
  | succ t ih =>
    intro i line column h
    rw [markerLoop_succ source marker (t + 1) i line column,
      markerLoop_succ source marker t i line column]
    cases hget : source.get? i with
    | none => rfl
    | some ch =>
      simp only
      by_cases hbreak : ch = '\r' ∨ ch = '\n'
      · rw [if_pos hbreak, if_pos hbreak]
        by_cases hpair : ch = '\r' ∧ source.get? (i + 1) = some '\n'
        · rw [if_pos hpair, ih _ _ _ (by omega)]
        · rw [if_neg hpair, ih _ _ _ (by omega)]
      · rw [if_neg hbreak, if_neg hbreak, ih _ _ _ (by omega)]

/-- Where the helper is right: if the first marker is not the first character
of the source and does not stand between a carriage return and a line feed,
`sourceWithMarker` returns the source without the marker and the position the
claim describes. -/
theorem sourceWithMarker_eq_markerPosition (before after : Str)
    (hfirst : '|' ∉ before) (hbefore : before ≠ [])
    (hpair : ¬ (before.getLast? = some '\r' ∧ after.head? = some '\n'))
    (hsize : before.length ≤ 2 ^ 64) :
    sourceWithMarker (before ++ '|' :: after) = markerPosition (before ++ '|' :: after) ∧
      markerPosition (before ++ '|' :: after) =
        some (before ++ after,
          { line := lineBreaks before, column := charactersAfterLastBreak before }) := by
  refine ⟨?_, markerPosition_split before after hfirst⟩
  rw [sourceWithMarker_split before after hfirst, markerPosition_split before after hfirst]
  have hscan := markerLoop_scan before.length before [] after (before ++ after).length 0 0
    rfl hbefore (by simpa using hsize) (by simp) hpair
  simp only [List.nil_append, List.length_nil, Nat.zero_add] at hscan
  rw [hscan, columnAfter_zero]

/-- C21 at its failing inputs. For the source "|abc", whose marker is its
first character, the helper returns column 3, the end of the text, where the
claim gives column 0: `marker - 1` wraps around and the loop is never left
early. For the source "a", carriage return, "|", line feed, "bc", whose
marker stands between a carriage return and a line feed, the turn at the
carriage return steps over the index `marker - 1` and the helper returns
column 2 where the claim gives column 0. -/
theorem sourceWithMarker_failing_inputs :
    sourceWithMarker "|abc".toList = some ("abc".toList, { line := 0, column := 3 }) ∧
    markerPosition "|abc".toList = some ("abc".toList, { line := 0, column := 0 }) ∧
    sourceWithMarker "a\r|\nbc".toList = some ("a\r\nbc".toList, { line := 1, column := 2 }) ∧
    markerPosition "a\r|\nbc".toList = some ("a\r\nbc".toList, { line := 1, column := 0 }) := by
  decide

end LuauLsp
